import Mathlib

/-!
Verification of the icongen build pipeline core: content-addressed artifact
revisioning (content hashing, artifact renaming, stale-revision cleanup,
style-sheet reference rewriting, manifest generation) and the SVG
`use`-reference inlining transform.

Strings are modelled as `List Char`; file contents as byte lists (`List Nat`,
each byte < 256 by construction in the digest code).  The file system is
modelled explicitly: a directory is a list of (name, content) pairs and a
file read is a function returning `Option` (`none` = the read throws).
-/

/-! ### 32-bit helpers -/

def w32 (n : Nat) : Nat := n % 4294967296

def rotr32 (k n : Nat) : Nat := w32 ((n >>> k) ||| (n <<< (32 - k)))

def rotl32 (k n : Nat) : Nat := w32 ((n <<< k) ||| (n >>> (32 - k)))

def not32 (n : Nat) : Nat := 4294967295 ^^^ (w32 n)

/-- Big-endian 4-byte serialisation of a 32-bit word. -/
def beBytes4 (n : Nat) : List Nat :=
  [(n >>> 24) % 256, (n >>> 16) % 256, (n >>> 8) % 256, n % 256]

/-- Little-endian 4-byte serialisation of a 32-bit word. -/
def leBytes4 (n : Nat) : List Nat :=
  [n % 256, (n >>> 8) % 256, (n >>> 16) % 256, (n >>> 24) % 256]

/-- Big-endian 8-byte serialisation. -/
def beBytes8 (n : Nat) : List Nat :=
  [(n >>> 56) % 256, (n >>> 48) % 256, (n >>> 40) % 256, (n >>> 32) % 256,
   (n >>> 24) % 256, (n >>> 16) % 256, (n >>> 8) % 256, n % 256]

/-- Little-endian 8-byte serialisation. -/
def leBytes8 (n : Nat) : List Nat :=
  [n % 256, (n >>> 8) % 256, (n >>> 16) % 256, (n >>> 24) % 256,
   (n >>> 32) % 256, (n >>> 40) % 256, (n >>> 48) % 256, (n >>> 56) % 256]

/-- Split a byte list into 64-byte blocks (the input is always a multiple
of 64 bytes long after padding). -/
def chunks64 (l : List Nat) : List (List Nat) :=
  if l = [] then []
  else l.take 64 :: chunks64 (l.drop 64)
termination_by l.length
decreasing_by
  simp only [List.length_drop]
  have : l.length ≠ 0 := by
    intro h
    exact (by assumption : ¬ l = []) (List.eq_nil_of_length_eq_zero h)
  omega

/-- Parse a 64-byte block as 16 big-endian 32-bit words. -/
def beWords : List Nat → List Nat
  | a :: b :: c :: d :: rest =>
      (a * 16777216 + b * 65536 + c * 256 + d) :: beWords rest
  | _ => []

/-- Parse a 64-byte block as 16 little-endian 32-bit words. -/
def leWords : List Nat → List Nat
  | a :: b :: c :: d :: rest =>
      (d * 16777216 + c * 65536 + b * 256 + a) :: leWords rest
  | _ => []

/-! ### SHA-256 (FIPS 180-4), as used by `createHash('sha256')` -/

def sha256K : List Nat :=
  [1116352408, 1899447441, 3049323471, 3921009573, 961987163, 1508970993,
   2453635748, 2870763221, 3624381080, 310598401, 607225278, 1426881987,
   1925078388, 2162078206, 2614888103, 3248222580, 3835390401, 4022224774,
   264347078, 604807628, 770255983, 1249150122, 1555081692, 1996064986,
   2554220882, 2821834349, 2952996808, 3210313671, 3336571891, 3584528711,
   113926993, 338241895, 666307205, 773529912, 1294757372, 1396182291,
   1695183700, 1986661051, 2177026350, 2456956037, 2730485921, 2820302411,
   3259730800, 3345764771, 3516065817, 3600352804, 4094571909, 275423344,
   430227734, 506948616, 659060556, 883997877, 958139571, 1322822218,
   1537002063, 1747873779, 1955562222, 2024104815, 2227730452, 2361852424,
   2428436474, 2756734187, 3204031479, 3329325298]

structure Sha2State where
  a : Nat
  b : Nat
  c : Nat
  d : Nat
  e : Nat
  f : Nat
  g : Nat
  h : Nat

def sha256Init : Sha2State :=
  ⟨1779033703, 3144134277, 1013904242, 2773480762,
   1359893119, 2600822924, 528734635, 1541459225⟩

def sha256SmallSigma0 (x : Nat) : Nat := (rotr32 7 x) ^^^ (rotr32 18 x) ^^^ (x >>> 3)

def sha256SmallSigma1 (x : Nat) : Nat := (rotr32 17 x) ^^^ (rotr32 19 x) ^^^ (x >>> 10)

def sha256BigSigma0 (x : Nat) : Nat := (rotr32 2 x) ^^^ (rotr32 13 x) ^^^ (rotr32 22 x)

def sha256BigSigma1 (x : Nat) : Nat := (rotr32 6 x) ^^^ (rotr32 11 x) ^^^ (rotr32 25 x)

/-- Extend 16 message words to the 64-word schedule. -/
def sha256Schedule (w : List Nat) : List Nat :=
  (List.range 48).foldl
    (fun acc i =>
      let j := i + 16
      acc ++ [w32 (sha256SmallSigma1 (acc.getD (j - 2) 0) + acc.getD (j - 7) 0 +
                   sha256SmallSigma0 (acc.getD (j - 15) 0) + acc.getD (j - 16) 0)])
    w

def sha256Round (st : Sha2State) (kw : Nat × Nat) : Sha2State :=
  let ch := (st.e &&& st.f) ^^^ ((not32 st.e) &&& st.g)
  let maj := (st.a &&& st.b) ^^^ (st.a &&& st.c) ^^^ (st.b &&& st.c)
  let t1 := w32 (st.h + sha256BigSigma1 st.e + ch + kw.1 + kw.2)
  let t2 := w32 (sha256BigSigma0 st.a + maj)
  ⟨w32 (t1 + t2), st.a, st.b, st.c, w32 (st.d + t1), st.e, st.f, st.g⟩

def sha256Block (st : Sha2State) (block : List Nat) : Sha2State :=
  let w := sha256Schedule (beWords block)
  let r := (sha256K.zip w).foldl sha256Round st
  ⟨w32 (st.a + r.a), w32 (st.b + r.b), w32 (st.c + r.c), w32 (st.d + r.d),
   w32 (st.e + r.e), w32 (st.f + r.f), w32 (st.g + r.g), w32 (st.h + r.h)⟩

/-- Merkle–Damgård padding with a big-endian 64-bit bit-length. -/
def sha256Pad (msg : List Nat) : List Nat :=
  let L := msg.length
  let k := (120 - ((L + 1) % 64)) % 64
  msg ++ [128] ++ List.replicate k 0 ++ beBytes8 (8 * L)

/-- SHA-256 digest: 32 bytes. -/
def sha256 (msg : List Nat) : List Nat :=
  let s := (chunks64 (sha256Pad msg)).foldl sha256Block sha256Init
  beBytes4 s.a ++ beBytes4 s.b ++ beBytes4 s.c ++ beBytes4 s.d ++
  beBytes4 s.e ++ beBytes4 s.f ++ beBytes4 s.g ++ beBytes4 s.h

/-! ### MD5 (RFC 1321), as used by `crypto.createHash('md5')` -/

def md5K : List Nat :=
  [0xd76aa478, 0xe8c7b756, 0x242070db, 0xc1bdceee, 0xf57c0faf, 0x4787c62a,
   0xa8304613, 0xfd469501, 0x698098d8, 0x8b44f7af, 0xffff5bb1, 0x895cd7be,
   0x6b901122, 0xfd987193, 0xa679438e, 0x49b40821, 0xf61e2562, 0xc040b340,
   0x265e5a51, 0xe9b6c7aa, 0xd62f105d, 0x02441453, 0xd8a1e681, 0xe7d3fbc8,
   0x21e1cde6, 0xc33707d6, 0xf4d50d87, 0x455a14ed, 0xa9e3e905, 0xfcefa3f8,
   0x676f02d9, 0x8d2a4c8a, 0xfffa3942, 0x8771f681, 0x6d9d6122, 0xfde5380c,
   0xa4beea44, 0x4bdecfa9, 0xf6bb4b60, 0xbebfbc70, 0x289b7ec6, 0xeaa127fa,
   0xd4ef3085, 0x04881d05, 0xd9d4d039, 0xe6db99e5, 0x1fa27cf8, 0xc4ac5665,
   0xf4292244, 0x432aff97, 0xab9423a7, 0xfc93a039, 0x655b59c3, 0x8f0ccc92,
   0xffeff47d, 0x85845dd1, 0x6fa87e4f, 0xfe2ce6e0, 0xa3014314, 0x4e0811a1,
   0xf7537e82, 0xbd3af235, 0x2ad7d2bb, 0xeb86d391]

def md5S : List Nat :=
  [7, 12, 17, 22, 7, 12, 17, 22, 7, 12, 17, 22, 7, 12, 17, 22,
   5, 9, 14, 20, 5, 9, 14, 20, 5, 9, 14, 20, 5, 9, 14, 20,
   4, 11, 16, 23, 4, 11, 16, 23, 4, 11, 16, 23, 4, 11, 16, 23,
   6, 10, 15, 21, 6, 10, 15, 21, 6, 10, 15, 21, 6, 10, 15, 21]

structure Md5State where
  a : Nat
  b : Nat
  c : Nat
  d : Nat

def md5Init : Md5State := ⟨0x67452301, 0xefcdab89, 0x98badcfe, 0x10325476⟩

def md5F (i b c d : Nat) : Nat :=
  if i < 16 then (b &&& c) ||| ((not32 b) &&& d)
  else if i < 32 then (d &&& b) ||| ((not32 d) &&& c)
  else if i < 48 then b ^^^ c ^^^ d
  else c ^^^ (b ||| (not32 d))

def md5G (i : Nat) : Nat :=
  if i < 16 then i
  else if i < 32 then (5 * i + 1) % 16
  else if i < 48 then (3 * i + 5) % 16
  else (7 * i) % 16

def md5Round (m : List Nat) (st : Md5State) (i : Nat) : Md5State :=
  let f := w32 (md5F i st.b st.c st.d + st.a + md5K.getD i 0 + m.getD (md5G i) 0)
  ⟨st.d, w32 (st.b + rotl32 (md5S.getD i 0) f), st.b, st.c⟩

def md5Block (st : Md5State) (block : List Nat) : Md5State :=
  let m := leWords block
  let r := (List.range 64).foldl (md5Round m) st
  ⟨w32 (st.a + r.a), w32 (st.b + r.b), w32 (st.c + r.c), w32 (st.d + r.d)⟩

/-- Merkle–Damgård padding with a little-endian 64-bit bit-length. -/
def md5Pad (msg : List Nat) : List Nat :=
  let L := msg.length
  let k := (120 - ((L + 1) % 64)) % 64
  msg ++ [128] ++ List.replicate k 0 ++ leBytes8 (8 * L)

/-- MD5 digest: 16 bytes. -/
def md5 (msg : List Nat) : List Nat :=
  let s := (chunks64 (md5Pad msg)).foldl md5Block md5Init
  leBytes4 s.a ++ leBytes4 s.b ++ leBytes4 s.c ++ leBytes4 s.d

/-! ### Hex and base-36 rendering -/

def hexChar (n : Nat) : Char := "0123456789abcdef".toList.getD n '0'

def bytesToHex (bs : List Nat) : List Char :=
  (bs.map (fun b => [hexChar ((b / 16) % 16), hexChar (b % 16)])).flatten

/-- `createHash(alg).update(bytes).digest('hex')` for SHA-256. -/
def sha256hex (msg : List Nat) : List Char := bytesToHex (sha256 msg)

/-- `createHash('md5').update(bytes).digest('hex')`. -/
def md5hex (msg : List Nat) : List Char := bytesToHex (md5 msg)

def base36Char (n : Nat) : Char :=
  "0123456789abcdefghijklmnopqrstuvwxyz".toList.getD n '0'

/-- JavaScript `n.toString(36)` for a non-negative integer. -/
def natToBase36 (n : Nat) : List Char :=
  if _h : n < 36 then [base36Char n]
  else natToBase36 (n / 36) ++ [base36Char (n % 36)]
termination_by n
decreasing_by
  exact Nat.div_lt_self (by omega) (by omega)

/-! ### String helpers (strings are `List Char`) -/

/-- `s.endsWith suf` on char lists. -/
def endsWithL (suf l : List Char) : Bool :=
  if suf.length ≤ l.length then l.drop (l.length - suf.length) == suf else false

/-- Strip a literal from the front: `some rest` iff `s = pre ++ rest`. -/
def stripL : List Char → List Char → Option (List Char)
  | [], s => some s
  | _ :: _, [] => none
  | p :: ps, c :: cs => if p == c then stripL ps cs else none

/-- Strict lexicographic comparison by code point, as JavaScript
`Array.prototype.sort()`'s default comparator orders strings. -/
def strLtB : List Char → List Char → Bool
  | [], [] => false
  | [], _ :: _ => true
  | _ :: _, [] => false
  | a :: as, b :: bs => a.toNat < b.toNat || (a == b && strLtB as bs)

def insSorted (x : List Char) : List (List Char) → List (List Char)
  | [] => [x]
  | y :: ys => if strLtB y x then y :: insSorted x ys else x :: y :: ys

/-- Deterministic sort used to model `files.sort()`. -/
def sortStrs (l : List (List Char)) : List (List Char) := l.foldr insSorted []

def isAlnum (c : Char) : Bool :=
  decide ((97 ≤ c.toNat ∧ c.toNat ≤ 122) ∨ (65 ≤ c.toNat ∧ c.toNat ≤ 90) ∨
          (48 ≤ c.toNat ∧ c.toNat ≤ 57))

/-! ### Content hashers

`BuildManager.generateContentHash` (SHA-256, truncated with `substring(0, 8)`)
and `SpriteGenerator.generateContentHash` (MD5, truncated with
`slice(0, hashLength)`).  The file system enters as data: `listing` is the
`readdirSync` result (`none` = the call throws) and `readFile` is
`readFileSync` (`none` = the read throws).  `now` stands for `Date.now()`.
Console warnings are collected in `warnings`; informational success logs are
not modelled. -/

structure HashResult where
  hash : List Char
  warnings : List (List Char)
deriving DecidableEq

def bmWarnNoSvg : List Char := "No SVG files found for hash generation".toList

def bmWarnFail : List Char :=
  "Failed to generate content hash, using timestamp fallback".toList

def spriteWarnFail : List Char := "Failed to generate content hash:".toList

/-- `readdirSync(dir).filter(f => f.endsWith('.svg')).sort()`. -/
def bmSvgFiles (listing : List (List Char)) : List (List Char) :=
  sortStrs (listing.filter (endsWithL ".svg".toList))

/-- `Buffer.concat(files.map(f => readFileSync(f)))`: fails if any read fails. -/
def readAll (readFile : List Char → Option (List Nat)) :
    List (List Char) → Option (List Nat)
  | [] => some []
  | f :: fs =>
      match readFile f, readAll readFile fs with
      | some b, some r => some (b ++ r)
      | _, _ => none

/-- `BuildManager.generateContentHash(svgDirectory)`. -/
def bmGenerateContentHash (enableHashRevving verbose : Bool) (now : Nat)
    (listing : Option (List (List Char)))
    (readFile : List Char → Option (List Nat)) : HashResult :=
  if enableHashRevving = false then ⟨[], []⟩
  else
    match listing with
    | none => ⟨natToBase36 now, if verbose then [bmWarnFail] else []⟩
    | some ls =>
        let svgFiles := bmSvgFiles ls
        if svgFiles = [] then ⟨[], if verbose then [bmWarnNoSvg] else []⟩
        else
          match readAll readFile svgFiles with
          | none => ⟨natToBase36 now, if verbose then [bmWarnFail] else []⟩
          | some bytes => ⟨(sha256hex bytes).take 8, []⟩

/-- `options.hashLength || 10` in the `SpriteGenerator` constructor
(`0` is falsy in JavaScript, hence also replaced by the default). -/
def resolveHashLength (o : Option Nat) : Nat :=
  match o with
  | some n => if n = 0 then 10 else n
  | none => 10

/-- `SpriteGenerator.generateContentHash(svgFiles)`; `svgFiles` is the
already-sorted list produced by `findSvgFiles`. -/
def spriteGenerateContentHash (hashLength : Nat) (verbose : Bool) (now : Nat)
    (svgFiles : List (List Char))
    (readFile : List Char → Option (List Nat)) : HashResult :=
  match readAll readFile svgFiles with
  | some bytes => ⟨(md5hex bytes).take hashLength, []⟩
  | none =>
      ⟨(natToBase36 now).take hashLength, if verbose then [spriteWarnFail] else []⟩

/-- `BuildManager.getHashedFilename(baseName, extension)`. -/
def getHashedFilename (contentHash baseName extension : List Char) : List Char :=
  if contentHash = [] then baseName ++ [Char.ofNat 46] ++ extension
  else baseName ++ [Char.ofNat 46] ++ contentHash ++ [Char.ofNat 46] ++ extension

/-! ### Directory model

A destination directory is a finite map from file name to text content,
represented as a list of pairs. -/

abbrev Dir : Type := List (List Char × List Char)

def dirLookup (d : Dir) (name : List Char) : Option (List Char) :=
  (List.find? (fun e => e.1 == name) d).map (fun e => e.2)

def dirNames (d : Dir) : List (List Char) := d.map (fun e => e.1)

def dirRemove (d : Dir) (name : List Char) : Dir :=
  List.filter (fun e => !(e.1 == name)) d

/-- `writeFileSync`: overwrite in place, or append a new entry. -/
def dirWrite (d : Dir) (name content : List Char) : Dir :=
  if (dirLookup d name).isSome then
    d.map (fun e => if e.1 == name then (name, content) else e)
  else d ++ [(name, content)]

/-- `existsSync(old) && renameSync(old, new)`. -/
def dirRename (d : Dir) (old new : List Char) : Dir :=
  match dirLookup d old with
  | some c => dirWrite (dirRemove d old) new c
  | none => d

/-! ### Style-sheet reference rewriting

`BuildManager.updateCSSWithHashedFilenames` builds, per font extension, the
two regexes

  `url\(['"]?OLD\?[^'"]*['"]?\)`   (cache-busting query form) and
  `url\(['"]?OLD['"]?\)`           (bare form),

where `OLD` is the old filename with dots escaped (the model treats `OLD`
as a literal, which is exact whenever the font name contains no other regex
metacharacters), and replaces every match with `url("NEW")` globally.  The
matchers below implement exactly these two patterns with JavaScript's
greedy/backtracking semantics; a matcher returns the suffix remaining after
a match starting at the head of its input. -/

def isQuoteC (c : Char) : Bool := c == Char.ofNat 39 || c == Char.ofNat 34

/-- `['"]?k`: greedily consume one quote if possible, backtracking to the
empty alternative if the continuation fails. -/
def matchOptQuote (k : List Char → Option (List Char)) (s : List Char) :
    Option (List Char) :=
  match s with
  | c :: rest =>
      if isQuoteC c then
        match k rest with
        | some r => some r
        | none => k s
      else k s
  | [] => k s

/-- `\)`. -/
def matchCloseParen : List Char → Option (List Char)
  | c :: rest => if c == Char.ofNat 41 then some rest else none
  | [] => none

/-- Backtracking for `[^'"]*['"]?\)`: try the longest run first. -/
def tryStar (s : List Char) : Nat → Option (List Char)
  | 0 => matchOptQuote matchCloseParen s
  | k + 1 =>
      match matchOptQuote matchCloseParen (s.drop (k + 1)) with
      | some r => some r
      | none => tryStar s k

/-- `[^'"]*['"]?\)` with greedy matching of the star. -/
def matchQueryTail (s : List Char) : Option (List Char) :=
  tryStar s (s.takeWhile (fun c => ! isQuoteC c)).length

/-- Match one of the two reference patterns at the head of `s`. -/
def matchPat (withQuery : Bool) (old s : List Char) : Option (List Char) :=
  match stripL "url(".toList s with
  | none => none
  | some s1 =>
      matchOptQuote
        (fun s2 =>
          match stripL old s2 with
          | none => none
          | some s3 =>
              if withQuery then
                match s3 with
                | c :: s4 => if c == Char.ofNat 63 then matchQueryTail s4 else none
                | [] => none
              else matchOptQuote matchCloseParen s3)
        s1

/-- Global regex replacement: scan left to right, replacing each match and
resuming after it, as `String.prototype.replace` with the `g` flag does
(the matchers above never produce empty or growing matches; the
`r.length < s.length` guard only certifies termination). -/
def replaceG (m : List Char → Option (List Char)) (repl : List Char) :
    List Char → List Char
  | [] => []
  | c :: rest =>
      match m (c :: rest) with
      | some r =>
          if _h : r.length < rest.length + 1 then repl ++ replaceG m repl r
          else c :: replaceG m repl rest
      | none => c :: replaceG m repl rest
termination_by s => s.length
decreasing_by
  all_goals simp_all

/-- The replacement text `url("NEW")`. -/
def cssRepl (contentHash fontName ext : List Char) : List Char :=
  "url(".toList ++ [Char.ofNat 34] ++ getHashedFilename contentHash fontName ext ++
  [Char.ofNat 34] ++ [Char.ofNat 41]

def fontExts : List (List Char) :=
  ["ttf".toList, "woff".toList, "woff2".toList, "eot".toList, "svg".toList]

/-- The replacement loop body of `updateCSSWithHashedFilenames`: for each
extension, first the query pattern, then the bare pattern. -/
def updateCSSContent (contentHash fontName : List Char) (css : List Char) :
    List Char :=
  fontExts.foldl
    (fun acc ext =>
      let old := fontName ++ [Char.ofNat 46] ++ ext
      let repl := cssRepl contentHash fontName ext
      replaceG (matchPat false old) repl (replaceG (matchPat true old) repl acc))
    css

/-- `updateCSSWithHashedFilenames(distDirectory, fontName)`: missing style
sheet is skipped, otherwise the file is rewritten in place. -/
def updateCSSWithHashedFilenames (contentHash fontName : List Char) (d : Dir) :
    Dir :=
  match dirLookup d (fontName ++ ".css".toList) with
  | none => d
  | some css =>
      dirWrite d (fontName ++ ".css".toList)
        (updateCSSContent contentHash fontName css)

/-- `BuildManager.renameFilesWithHash(distDirectory, fontName, updateCSS)`. -/
def renameFilesWithHash (contentHash fontName : List Char) (updateCSS : Bool)
    (d : Dir) : Dir :=
  if contentHash = [] then d
  else
    let d1 :=
      fontExts.foldl
        (fun acc ext =>
          dirRename acc (fontName ++ [Char.ofNat 46] ++ ext)
            (getHashedFilename contentHash fontName ext))
        d
    if updateCSS then updateCSSWithHashedFilenames contentHash fontName d1 else d1

/-! ### Manifest generation

`BuildManager.generateManifest`; the `generatedAt` wall-clock timestamp and
the floating-point size strings (`toFixed`) are not modelled — no claim
touches them.  The manifest value is returned alongside the directory; the
written `manifest.json` content is an opaque rendering of that value. -/

structure Manifest where
  version : List Char
  hash : List Char
  css : List Char
  fontTtf : List Char
  fontWoff : List Char
  fontWoff2 : List Char
  fontEot : List Char
  fontSvg : List Char
  icons : List (List Char)
deriving DecidableEq

def renderManifest (m : Manifest) : List Char :=
  m.version ++ m.hash ++ m.css ++ m.fontTtf ++ m.fontWoff ++ m.fontWoff2 ++
  m.fontEot ++ m.fontSvg ++ m.icons.flatten

def generateManifest (contentHash fontName : List Char)
    (iconList : List (List Char)) (d : Dir) : Dir × Option Manifest :=
  if contentHash = [] then (d, none)
  else
    let m : Manifest :=
      { version := "1.0.0".toList
        hash := contentHash
        css := fontName ++ ".css".toList
        fontTtf := getHashedFilename contentHash fontName "ttf".toList
        fontWoff := getHashedFilename contentHash fontName "woff".toList
        fontWoff2 := getHashedFilename contentHash fontName "woff2".toList
        fontEot := getHashedFilename contentHash fontName "eot".toList
        fontSvg := getHashedFilename contentHash fontName "svg".toList
        icons := iconList }
    (dirWrite d "manifest.json".toList (renderManifest m), some m)

/-! ### Sprite revision cleanup and write

`SpriteGenerator.cleanupOldSprites` deletes every file whose name the
unanchored regex `SPRITENAME(?:-[a-zA-Z0-9]+)?\.svg` tests true on
(`spriteName` is interpolated verbatim; the model treats it as a literal,
exact for metacharacter-free names).  `writeSpriteFile` cleans up first and
then writes the current revision. -/

/-- Does the sprite pattern match starting exactly at the head of `s`? -/
def spriteMatchAt (spriteName s : List Char) : Bool :=
  match stripL spriteName s with
  | none => false
  | some r =>
      (match stripL ".svg".toList r with
       | some _ => true
       | none =>
           match r with
           | c :: r2 =>
               if c == Char.ofNat 45 then
                 let run := r2.takeWhile isAlnum
                 decide (1 ≤ run.length) &&
                   (match stripL ".svg".toList (r2.drop run.length) with
                    | some _ => true
                    | none => false)
               else false
           | [] => false)

/-- `new RegExp(...).test(file)`: unanchored, so a match may start at any
position. -/
def spriteTest (spriteName file : List Char) : Bool :=
  (List.range (file.length + 1)).any (fun i => spriteMatchAt spriteName (file.drop i))

/-- `SpriteGenerator.cleanupOldSprites(outputDir)`. -/
def cleanupOldSprites (spriteName : List Char) (d : Dir) : Dir :=
  List.filter (fun e => ! spriteTest spriteName e.1) d

/-- The output file name chosen by `writeSpriteFile` / `getSpriteUrl`. -/
def spriteOutName (enableHashRevving : Bool) (spriteName contentHash : List Char) :
    List Char :=
  if enableHashRevving then spriteName ++ [Char.ofNat 45] ++ contentHash ++ ".svg".toList
  else spriteName ++ ".svg".toList

/-- `SpriteGenerator.writeSpriteFile`: cleanup, then write the new revision. -/
def writeSpriteFile (enableHashRevving : Bool) (spriteName contentHash compiled : List Char)
    (d : Dir) : Dir × List Char :=
  let name := spriteOutName enableHashRevving spriteName contentHash
  let d1 := cleanupOldSprites spriteName d
  (dirWrite d1 name compiled, name)

/-! ### The `inlineDefs` SVGO plugin

The plugin mutates a live XAST tree through shared object references.  The
model makes object identity explicit: every element of the input document is
assigned a numeric id (its allocation order), the tree is a `Store` mapping
ids to node data, and a child list is a list of ids.  Mutation of a node
through any alias is then a store update, and the `child === use` identity
tests of the source become id equality.  Only element nodes are modelled:
the plugin inspects and rewrites element nodes exclusively.

The traversal order of SVGO's visitor is the pre/post order of the tree as
it was when the walk began: the plugin's callbacks only ever reassign the
child array of a node whose own child iteration has already captured the
previous array, so removals never change which nodes are visited.  The walk
below therefore recurses over an immutable snapshot (`Snap`) of the initial
tree while threading the mutable store. -/

inductive XTree where
  | elem (name : List Char) (attrs : List (List Char × List Char))
      (children : List XTree)

/-- JS-object / `Map` lookup. -/
def alookup {α : Type} : List (List Char × α) → List Char → Option α
  | [], _ => none
  | e :: rest, k => if e.1 == k then some e.2 else alookup rest k

/-- JS-object / `Map` assignment: replace in place, or append a new key. -/
def aset {α : Type} (m : List (List Char × α)) (k : List Char) (v : α) :
    List (List Char × α) :=
  if (alookup m k).isSome then m.map (fun e => if e.1 == k then (k, v) else e)
  else m ++ [(k, v)]

/-- `delete obj[k]`. -/
def aremove {α : Type} (m : List (List Char × α)) (k : List Char) :
    List (List Char × α) :=
  List.filter (fun e => !(e.1 == k)) m

structure NodeData where
  name : List Char
  attrs : List (List Char × List Char)
  children : List Nat
deriving DecidableEq

instance : Inhabited NodeData := ⟨⟨[], [], []⟩⟩

abbrev Store : Type := List NodeData

def getNode (st : Store) (i : Nat) : NodeData := st.getD i default

def setAttrs (st : Store) (i : Nat) (attrs : List (List Char × List Char)) :
    Store :=
  st.set i { getNode st i with attrs := attrs }

def setChildren (st : Store) (i : Nat) (cs : List Nat) : Store :=
  st.set i { getNode st i with children := cs }

/-- Id-annotated snapshot of the initial tree. -/
inductive Snap where
  | mk (id : Nat) (children : List Snap)

mutual

/-- Allocate ids for a tree in pre-order, extending the store. -/
def buildNode (t : XTree) (st : Store) : Nat × Snap × Store :=
  match t with
  | .elem name attrs children =>
      let myId := st.length
      let st1 := st ++ [⟨name, attrs, []⟩]
      let r := buildList children st1
      (myId, Snap.mk myId r.2.1, setChildren r.2.2 myId r.1)

def buildList (ts : List XTree) (st : Store) : List Nat × List Snap × Store :=
  match ts with
  | [] => ([], [], st)
  | t :: rest =>
      let a := buildNode t st
      let b := buildList rest a.2.2
      (a.1 :: b.1, a.2.1 :: b.2.1, b.2.2)

end

/-- `attrs['xlink:href'] || attrs.href`, with JavaScript truthiness: the
empty string falls through and a final empty string counts as absent. -/
def getHref (attrs : List (List Char × List Char)) : Option (List Char) :=
  let raw :=
    match alookup attrs "xlink:href".toList with
    | some v => if v = [] then alookup attrs "href".toList else some v
    | none => alookup attrs "href".toList
  match raw with
  | some v => if v = [] then none else some v
  | none => none

mutual

/-- `visitElements(svg, fn)`: apply `fn` to each element child (recording
`use` elements with their parent), then recurse into it. -/
def collectFrom (st : Store) (s : Snap) : List (Nat × Nat) :=
  match s with
  | .mk nid children => collectList st nid children

def collectList (st : Store) (pid : Nat) (ts : List Snap) : List (Nat × Nat) :=
  match ts with
  | [] => []
  | s :: rest =>
      (match s with
       | .mk cid _ =>
           if (getNode st cid).name == "use".toList then [(cid, pid)] else []) ++
      collectFrom st s ++ collectList st pid rest

end

/-- The `useCounts` tally built by the index pass. -/
def countsOf (st : Store) (uses : List (Nat × Nat)) : List (List Char × Nat) :=
  uses.foldl
    (fun m u =>
      match getHref (getNode st u.1).attrs with
      | some h => aset m h ((alookup m h).getD 0 + 1)
      | none => m)
    []

structure PState where
  store : Store
  refs : List (List Char × Nat)

/-- `element.enter`: register referenced elements; in flatten-shared mode
strip the id of a multiply-referenced target; in unique-only mode detach a
singly-referenced target from its parent. -/
def enterCB (onlyUnique : Bool) (counts : List (List Char × Nat))
    (nid pid : Nat) (ps : PState) : PState :=
  let n := getNode ps.store nid
  match alookup n.attrs "id".toList with
  | none => ps
  | some idv =>
      let href := [Char.ofNat 35] ++ idv
      match alookup counts href with
      | none => ps
      | some count =>
          let ps1 : PState := { ps with refs := aset ps.refs href nid }
          let ps2 :=
            if onlyUnique = false ∧ count > 1 then
              { ps1 with store := setAttrs ps1.store nid (aremove n.attrs "id".toList) }
            else ps1
          if onlyUnique = true ∧ count = 1 then
            { ps2 with
              store := setChildren ps2.store pid
                (List.filter (fun c => !(c == nid)) (getNode ps2.store pid).children) }
          else ps2

/-- `element.exit`: drop a `defs` container when flattening, or when it has
become empty. -/
def exitCB (onlyUnique : Bool) (nid pid : Nat) (ps : PState) : PState :=
  let n := getNode ps.store nid
  if n.name == "defs".toList then
    if onlyUnique = false ∨ n.children.length = 0 then
      { ps with
        store := setChildren ps.store pid
          (List.filter (fun c => !(c == nid)) (getNode ps.store pid).children) }
    else ps
  else ps

mutual

def walkSnap (onlyUnique : Bool) (counts : List (List Char × Nat)) (pid : Nat)
    (s : Snap) (ps : PState) : PState :=
  match s with
  | .mk nid children =>
      exitCB onlyUnique nid pid
        (walkList onlyUnique counts nid children (enterCB onlyUnique counts nid pid ps))

def walkList (onlyUnique : Bool) (counts : List (List Char × Nat)) (pid : Nat)
    (ts : List Snap) (ps : PState) : PState :=
  match ts with
  | [] => ps
  | s :: rest => walkList onlyUnique counts pid rest (walkSnap onlyUnique counts pid s ps)

end

/-- Merge every `use` attribute except `x`, `y`, `href`, `xlink:href` onto
the target, the `use` value winning, in insertion order. -/
def mergeAttrs (target useAttrs : List (List Char × List Char)) :
    List (List Char × List Char) :=
  useAttrs.foldl
    (fun acc kv =>
      if kv.1 == "x".toList || kv.1 == "y".toList ||
         kv.1 == "xlink:href".toList || kv.1 == "href".toList then acc
      else aset acc kv.1 kv.2)
    target

/-- One iteration of the `root.exit` finalize loop for a recorded
`(use, parent)` pair. -/
def finalizeUse (onlyUnique : Bool) (counts : List (List Char × Nat))
    (ps : PState) (up : Nat × Nat) : PState :=
  let uid := up.1
  let pid := up.2
  match getHref (getNode ps.store uid).attrs with
  | none => ps
  | some href =>
      let count := (alookup counts href).getD 0
      if onlyUnique = true ∧ count > 1 then ps
      else
        match alookup ps.refs href with
        | none => ps
        | some rid =>
            let st1 := setAttrs ps.store rid
              (mergeAttrs (getNode ps.store rid).attrs (getNode ps.store uid).attrs)
            let uAttrs := (getNode st1 uid).attrs
            let tv : Option (List Char) :=
              match alookup uAttrs "x".toList, alookup uAttrs "y".toList with
              | some xv, some yv =>
                  some ("translate(".toList ++ xv ++ ", ".toList ++ yv ++ [Char.ofNat 41])
              | some xv, none => some ("translate(".toList ++ xv ++ [Char.ofNat 41])
              | none, _ => none
            match tv with
            | some t =>
                let gid := st1.length
                let st2 := st1 ++ [⟨"g".toList, [("transform".toList, t)], [rid]⟩]
                { ps with
                  store := setChildren st2 pid
                    ((getNode st2 pid).children.map (fun c => if c == uid then gid else c)) }
            | none =>
                { ps with
                  store := setChildren st1 pid
                    ((getNode st1 pid).children.map (fun c => if c == uid then rid else c)) }

structure PluginRun where
  rootId : Nat
  rootChildren : List Snap
  uses : List (Nat × Nat)
  counts : List (List Char × Nat)
  init : Store
  afterWalk : PState
  final : PState

/-- Run the whole plugin on a document (the child list of the XAST root):
index pass over the first root child, visitor walk, then the finalize
loop. -/
def runPlugin (onlyUnique : Bool) (doc : List XTree) : PluginRun :=
  let b := buildNode (XTree.elem "#root".toList [] doc) []
  let rootId := b.1
  let rootChildren := match b.2.1 with | .mk _ children => children
  let st0 := b.2.2
  let uses := match rootChildren with | c :: _ => collectFrom st0 c | [] => []
  let counts := countsOf st0 uses
  let ps1 := walkList onlyUnique counts rootId rootChildren ⟨st0, []⟩
  let ps2 := uses.foldl (finalizeUse onlyUnique counts) ps1
  ⟨rootId, rootChildren, uses, counts, st0, ps1, ps2⟩

/-! ### Supporting lemmas: digest lengths and hex alphabets -/

lemma length_bytesToHex (bs : List Nat) : (bytesToHex bs).length = 2 * bs.length := by
  induction bs with
  | nil => rfl
  | cons b rest ih =>
      simp only [bytesToHex, List.map_cons, List.flatten_cons] at ih ⊢
      simp only [List.length_append, List.length_cons, List.length_nil, ih]
      omega

lemma length_sha256 (msg : List Nat) : (sha256 msg).length = 32 := by
  simp [sha256, beBytes4]

lemma length_md5 (msg : List Nat) : (md5 msg).length = 16 := by
  simp [md5, leBytes4]

lemma length_sha256hex (msg : List Nat) : (sha256hex msg).length = 64 := by
  simp [sha256hex, length_bytesToHex, length_sha256]

lemma length_md5hex (msg : List Nat) : (md5hex msg).length = 32 := by
  simp [md5hex, length_bytesToHex, length_md5]

lemma hexChar_mem (n : Nat) : hexChar n ∈ "0123456789abcdef".toList := by
  unfold hexChar
  by_cases h : n < ("0123456789abcdef".toList).length
  · rw [List.getD_eq_getElem _ _ h]
    exact List.getElem_mem h
  · rw [List.getD_eq_default _ _ (by omega)]
    decide

lemma mem_bytesToHex (bs : List Nat) (c : Char) (hc : c ∈ bytesToHex bs) :
    c ∈ "0123456789abcdef".toList := by
  induction bs with
  | nil => simp [bytesToHex] at hc
  | cons b rest ih =>
      simp only [bytesToHex, List.map_cons, List.flatten_cons, List.mem_append,
        List.mem_cons, List.mem_singleton] at hc
      rcases hc with (h | h) | h
      · rw [h]; exact hexChar_mem _
      · simp at h; rw [h]; exact hexChar_mem _
      · exact ih (by simpa [bytesToHex] using h)

/-! ### C10 -/

/-- C10: when the stored content hash is the empty string,
`getHashedFilename` returns the plain `baseName.extension`, and both
`renameFilesWithHash` and `generateManifest` return at once without
touching the directory (no read, rename, write or delete) and without
producing a manifest. -/
theorem C10_empty_hash_noop :
    (∀ baseName ext : List Char,
        getHashedFilename [] baseName ext = baseName ++ ".".toList ++ ext) ∧
    (∀ (fontName : List Char) (uc : Bool) (d : Dir),
        renameFilesWithHash [] fontName uc d = d) ∧
    (∀ (fontName : List Char) (icons : List (List Char)) (d : Dir),
        generateManifest [] fontName icons d = (d, none)) := by
  refine ⟨fun baseName ext => ?_, fun fontName uc d => ?_, fun fontName icons d => ?_⟩
  · rfl
  · rfl
  · rfl

/-! ### C3 -/

/-- C3 counterexample: `BuildManager.generateContentHash` truncates with the
hard-coded `substring(0, 8)` — its options carry no length knob at all — so
on a successful run the hash has length 8, not the claimed default of 10.
Concrete run: one source file `a.svg` with content byte `0`. -/
theorem C3_counterexample :
    (bmGenerateContentHash true false 0 (some ["a.svg".toList])
        (fun _ => some [0])).hash.length = 8 ∧ (8 : Nat) ≠ 10 := by
  have h : bmGenerateContentHash true false 0 (some ["a.svg".toList])
      (fun _ => some [0]) = ⟨(sha256hex [0]).take 8, []⟩ := by rfl
  refine ⟨?_, by omega⟩
  rw [h]
  simp [List.length_take, length_sha256hex]

/-- C3 amended: the hash is a hex string; the sprite generator truncates its
MD5 hex digest to the configurable `hashLength` (default 10 when the option
is absent — or `0`, which is falsy), while the build manager truncates its
SHA-256 hex digest to the fixed length 8. -/
theorem C3_amended :
    resolveHashLength none = 10 ∧
    (∀ (verbose : Bool) (now : Nat) (files : List (List Char)) read bytes,
        readAll read files = some bytes →
        (spriteGenerateContentHash (resolveHashLength none) verbose now files
            read).hash.length = 10) ∧
    (∀ (hl : Nat) (verbose : Bool) (now : Nat) (files : List (List Char)) read
        bytes, readAll read files = some bytes → hl ≤ 32 →
        (spriteGenerateContentHash hl verbose now files read).hash.length = hl) ∧
    (∀ (verbose : Bool) (now : Nat) (l : List (List Char)) read bytes,
        readAll read (bmSvgFiles l) = some bytes →
        (bmGenerateContentHash true verbose now (some l) read).hash.length = 8 ∨
        (bmGenerateContentHash true verbose now (some l) read).hash = []) ∧
    (∀ (hl : Nat) (verbose : Bool) (now : Nat) (files : List (List Char)) read
        bytes c, readAll read files = some bytes →
        c ∈ (spriteGenerateContentHash hl verbose now files read).hash →
        c ∈ "0123456789abcdef".toList) ∧
    (∀ (verbose : Bool) (now : Nat) (l : List (List Char)) read bytes c,
        readAll read (bmSvgFiles l) = some bytes →
        c ∈ (bmGenerateContentHash true verbose now (some l) read).hash →
        c ∈ "0123456789abcdef".toList) := by
  refine ⟨rfl, ?_, ?_, ?_, ?_, ?_⟩
  · intro verbose now files read bytes h
    simp [spriteGenerateContentHash, h, List.length_take, length_md5hex,
      resolveHashLength]
  · intro hl verbose now files read bytes h hle
    simp [spriteGenerateContentHash, h, List.length_take, length_md5hex]
    omega
  · intro verbose now l read bytes h
    by_cases he : bmSvgFiles l = []
    · right; simp [bmGenerateContentHash, he]
    · left
      simp [bmGenerateContentHash, he, h, List.length_take, length_sha256hex]
  · intro hl verbose now files read bytes c h hc
    simp only [spriteGenerateContentHash, h] at hc
    exact mem_bytesToHex _ _ (List.mem_of_mem_take hc)
  · intro verbose now l read bytes c h hc
    by_cases he : bmSvgFiles l = []
    · simp [bmGenerateContentHash, he] at hc
    · simp only [bmGenerateContentHash, he, h, if_neg, if_false] at hc
      simp at hc
      exact mem_bytesToHex _ _ (List.mem_of_mem_take hc)

/-- Witness for `C3_amended` at a concrete configuration: one file of one
byte, default hash length. -/
theorem C3_amended_witness :
    (spriteGenerateContentHash (resolveHashLength none) false 0 ["a.svg".toList]
        (fun _ => some [0])).hash.length = 10 ∧
    (bmGenerateContentHash true false 0 (some ["a.svg".toList])
        (fun _ => some [0])).hash.length = 8 ∨
    (bmGenerateContentHash true false 0 (some ["a.svg".toList])
        (fun _ => some [0])).hash = [] := by
  left
  constructor
  · exact C3_amended.2.1 false 0 ["a.svg".toList] (fun _ => some [0]) [0] rfl
  · rcases C3_amended.2.2.2.1 false 0 ["a.svg".toList] (fun _ => some [0]) [0] rfl
      with h | h
    · exact h
    · exact absurd h (by decide)

/-! ### C4 -/

/-- C4 counterexample: with `verbose` off, a failed source read still yields
the timestamp fallback hash, but no warning is logged (`console.warn` is
gated on the `verbose` option), contradicting the claim that the hasher
logs a warning whenever a read fails. -/
theorem C4_counterexample :
    (bmGenerateContentHash true false 12345 (some ["a.svg".toList])
        (fun _ => none)).warnings = [] ∧
    (bmGenerateContentHash true false 12345 (some ["a.svg".toList])
        (fun _ => none)).hash = natToBase36 12345 := by
  exact ⟨rfl, rfl⟩

/-- C4 amended: if reading any source file fails, the hasher does not
propagate the error: it returns the timestamp-derived base-36 pseudo-hash
(whole for the build manager, truncated to `hashLength` for the sprite
generator) and logs a warning exactly when `verbose` is enabled.  Totality
of the model reflects that no exception escapes. -/
theorem C4_amended :
    (∀ (verbose : Bool) (now : Nat) (l : List (List Char)) read,
        bmSvgFiles l ≠ [] → readAll read (bmSvgFiles l) = none →
        bmGenerateContentHash true verbose now (some l) read =
          ⟨natToBase36 now, if verbose then [bmWarnFail] else []⟩) ∧
    (∀ (hl : Nat) (verbose : Bool) (now : Nat) (files : List (List Char)) read,
        readAll read files = none →
        spriteGenerateContentHash hl verbose now files read =
          ⟨(natToBase36 now).take hl, if verbose then [spriteWarnFail] else []⟩) := by
  constructor
  · intro verbose now l read hne h
    simp [bmGenerateContentHash, hne, h]
  · intro hl verbose now files read h
    simp [spriteGenerateContentHash, h]

/-- Witness for `C4_amended`: a concrete failing read. -/
theorem C4_amended_witness :
    bmGenerateContentHash true true 7 (some ["a.svg".toList]) (fun _ => none) =
      ⟨natToBase36 7, [bmWarnFail]⟩ ∧
    spriteGenerateContentHash 10 true 7 ["a.svg".toList] (fun _ => none) =
      ⟨(natToBase36 7).take 10, [spriteWarnFail]⟩ := by
  constructor
  · exact C4_amended.1 true 7 ["a.svg".toList] (fun _ => none) (by decide) (by rfl)
  · exact C4_amended.2 10 true 7 ["a.svg".toList] (fun _ => none) (by rfl)

/-! ### C1 -/

/-- C1: for source asset sets that are byte-identical and enumerated in the
same sorted order (captured as: the ordered concatenation of the files'
bytes is the same list), with no read failure, both hashers return the
identical truncated hash; in particular the result does not depend on the
`Date.now()` value, the verbosity, the listing's incidental names, or which
invocation performs the run. -/
theorem C1_hash_deterministic :
    (∀ (v₁ v₂ : Bool) (now₁ now₂ : Nat) (l₁ l₂ : List (List Char)) r₁ r₂ bytes,
        readAll r₁ (bmSvgFiles l₁) = some bytes →
        readAll r₂ (bmSvgFiles l₂) = some bytes →
        (bmSvgFiles l₁ = [] ↔ bmSvgFiles l₂ = []) →
        (bmGenerateContentHash true v₁ now₁ (some l₁) r₁).hash =
        (bmGenerateContentHash true v₂ now₂ (some l₂) r₂).hash) ∧
    (∀ (hl : Nat) (v₁ v₂ : Bool) (now₁ now₂ : Nat) (fs₁ fs₂ : List (List Char))
        r₁ r₂ bytes,
        readAll r₁ fs₁ = some bytes → readAll r₂ fs₂ = some bytes →
        (spriteGenerateContentHash hl v₁ now₁ fs₁ r₁).hash =
        (spriteGenerateContentHash hl v₂ now₂ fs₂ r₂).hash) := by
  constructor
  · intro v₁ v₂ now₁ now₂ l₁ l₂ r₁ r₂ bytes h₁ h₂ hiff
    by_cases he : bmSvgFiles l₁ = []
    · simp [bmGenerateContentHash, he, hiff.mp he]
    · have he₂ : ¬ bmSvgFiles l₂ = [] := fun h => he (hiff.mpr h)
      simp [bmGenerateContentHash, he, he₂, h₁, h₂]
  · intro hl v₁ v₂ now₁ now₂ fs₁ fs₂ r₁ r₂ bytes h₁ h₂
    simp [spriteGenerateContentHash, h₁, h₂]

/-- Witness for `C1_hash_deterministic`: two invocations with different
timestamps, verbosities and listing orders over byte-identical content. -/
theorem C1_hash_deterministic_witness :
    (bmGenerateContentHash true true 11 (some ["b.svg".toList, "a.svg".toList])
        (fun f => if f = "a.svg".toList then some [1, 2] else some [3])).hash =
    (bmGenerateContentHash true false 999 (some ["a.svg".toList, "b.svg".toList])
        (fun f => if f = "b.svg".toList then some [3] else some [1, 2])).hash ∧
    (spriteGenerateContentHash 10 true 11 ["x.svg".toList]
        (fun _ => some [5, 6])).hash =
    (spriteGenerateContentHash 10 false 999 ["x.svg".toList]
        (fun _ => some [5, 6])).hash := by
  constructor
  · exact C1_hash_deterministic.1 true false 11 999 _ _ _ _ [1, 2, 3]
      (by decide) (by decide) (by decide)
  · exact C1_hash_deterministic.2 10 true false 11 999 _ _ _ _ [5, 6]
      (by decide) (by decide)

/-! ### Supporting lemmas: matching and directory names -/

lemma stripL_self_append (p r : List Char) : stripL p (p ++ r) = some r := by
  induction p with
  | nil => rfl
  | cons a ps ih => simp [stripL, ih]

lemma takeWhile_append_all {p : Char → Bool} {l l' : List Char}
    (h : ∀ x ∈ l, p x = true) :
    (l ++ l').takeWhile p = l ++ l'.takeWhile p := by
  induction l with
  | nil => simp
  | cons a as ih =>
      have ha := h a (by simp)
      simp only [List.cons_append, List.takeWhile_cons, ha, if_true]
      rw [ih (fun x hx => h x (by simp [hx]))]

lemma dirNames_overwrite (d : Dir) (name c : List Char) :
    dirNames (d.map (fun e => if e.1 == name then (name, c) else e)) =
      dirNames d := by
  unfold dirNames
  rw [List.map_map]
  apply List.map_congr_left
  intro e _
  by_cases h : e.1 = name
  · simp [h]
  · simp [h]

lemma mem_dirNames_dirWrite {d : Dir} {n : List Char} (name c : List Char)
    (h : n ∈ dirNames d) : n ∈ dirNames (dirWrite d name c) := by
  unfold dirWrite
  split
  · rw [dirNames_overwrite]; exact h
  · unfold dirNames at h ⊢
    simp only [List.map_append]
    exact List.mem_append_left _ h

lemma mem_dirNames_dirRemove {d : Dir} {n old : List Char}
    (h : n ∈ dirNames d) (hne : n ≠ old) : n ∈ dirNames (dirRemove d old) := by
  unfold dirNames at h ⊢
  rcases List.mem_map.mp h with ⟨e, he, rfl⟩
  refine List.mem_map.mpr ⟨e, ?_, rfl⟩
  refine List.mem_filter.mpr ⟨he, ?_⟩
  simpa using hne

lemma mem_dirNames_dirRename {d : Dir} {n : List Char} (old new : List Char)
    (h : n ∈ dirNames d) (hne : n ≠ old) :
    n ∈ dirNames (dirRename d old new) := by
  unfold dirRename
  split
  · exact mem_dirNames_dirWrite _ _ (mem_dirNames_dirRemove h hne)
  · exact h

/-! ### C2 -/

/-- C2 counterexample: the font pipeline's `renameFilesWithHash` does not
delete previous hashed revisions.  Starting from a directory holding the
stale revision `icon.old1.ttf` alongside the fresh plain `icon.ttf`, a run
with the new hash `new1` leaves the stale revision in place next to the
new `icon.new1.ttf` — two live revisions, although `icon.old1.ttf` matches
base name + hash suffix + known extension and the claim requires it to be
deleted. -/
theorem C2_counterexample :
    dirNames (renameFilesWithHash "new1".toList "icon".toList false
      [("icon.old1.ttf".toList, "A".toList), ("icon.ttf".toList, "B".toList)]) =
    ["icon.old1.ttf".toList, "icon.new1.ttf".toList] := by decide

/-- One sprite run leaves exactly one matching revision: the new name
matches the cleanup pattern, everything matching was deleted first. -/
lemma spriteTest_outName (n h : List Char) (hne : h ≠ [])
    (hal : ∀ x ∈ h, isAlnum x = true) :
    spriteTest n (spriteOutName true n h) = true := by
  have hout : spriteOutName true n h =
      n ++ (Char.ofNat 45 :: (h ++ ".svg".toList)) := by
    simp [spriteOutName, List.append_assoc]
  unfold spriteTest
  rw [List.any_eq_true]
  refine ⟨0, by simp, ?_⟩
  rw [List.drop_zero, hout]
  have h1 : stripL ".svg".toList (Char.ofNat 45 :: (h ++ ".svg".toList)) = none := by
    simp [stripL, show (('.' : Char) == Char.ofNat 45) = false by decide]
  have h2 : (h ++ ".svg".toList).takeWhile isAlnum = h := by
    rw [takeWhile_append_all hal]
    simp [List.takeWhile_cons, show isAlnum '.' = false by decide]
  have h3 : (h ++ ".svg".toList).drop h.length = ".svg".toList :=
    List.drop_left h _
  have h4 : stripL ".svg".toList ".svg".toList = some [] := by
    have := stripL_self_append ".svg".toList []
    simpa using this
  have h5 : 1 ≤ h.length := List.length_pos.mpr hne
  simp only [spriteMatchAt, stripL_self_append, h1, h2, h3, h4]
  simp [h5]

/-- C2 amended: the sprite generator's `writeSpriteFile` first deletes
every directory entry matching `NAME(-alnum+)?.svg` and then writes the
current revision, so afterwards exactly one entry matches the pattern — the
freshly written one; the font build manager's `renameFilesWithHash`, in
contrast, deletes nothing except the five plain-named font files it
renames, so stale hashed revisions survive it. -/
theorem C2_amended :
    (∀ (spriteName h compiled : List Char) (d : Dir), h ≠ [] →
        (∀ x ∈ h, isAlnum x = true) →
        List.filter (fun e => spriteTest spriteName e.1)
            (writeSpriteFile true spriteName h compiled d).1 =
          [(spriteOutName true spriteName h, compiled)]) ∧
    (∀ (h fontName : List Char) (uc : Bool) (d : Dir) (n : List Char),
        n ∈ dirNames d →
        (∀ ext ∈ fontExts, n ≠ fontName ++ [Char.ofNat 46] ++ ext) →
        n ∈ dirNames (renameFilesWithHash h fontName uc d)) := by
  constructor
  · intro spriteName h compiled d hne hal
    have htest := spriteTest_outName spriteName h hne hal
    unfold writeSpriteFile
    simp only
    set name := spriteOutName true spriteName h with hname
    have hclean : ∀ e ∈ cleanupOldSprites spriteName d,
        spriteTest spriteName e.1 = false := by
      intro e he
      have := (List.mem_filter.mp he).2
      simpa using this
    have hnone : (dirLookup (cleanupOldSprites spriteName d) name).isSome = false := by
      unfold dirLookup
      cases hf : List.find? (fun e => e.1 == name) (cleanupOldSprites spriteName d) with
      | none => rfl
      | some e =>
          have hmem := List.mem_of_find?_eq_some hf
          have hpred : e.1 = name := by simpa using List.find?_some hf
          have hfalse := hclean e hmem
          rw [hpred, htest] at hfalse
          simp at hfalse
    unfold dirWrite
    rw [hnone]
    simp only [Bool.false_eq_true, if_false]
    rw [List.filter_append]
    have hnil : List.filter (fun e => spriteTest spriteName e.1)
        (cleanupOldSprites spriteName d) = [] := by
      rw [List.filter_eq_nil_iff]
      intro e he
      simp [hclean e he]
    rw [hnil]
    simp [htest]
  · intro h fontName uc d n hmem hdiff
    unfold renameFilesWithHash
    by_cases hh : h = []
    · simp [hh, hmem]
    · simp only [hh, if_false]
      have hfold : ∀ (exts : List (List Char)) (d' : Dir), n ∈ dirNames d' →
          (∀ ext ∈ exts, n ≠ fontName ++ [Char.ofNat 46] ++ ext) →
          n ∈ dirNames (exts.foldl
            (fun acc ext => dirRename acc (fontName ++ [Char.ofNat 46] ++ ext)
              (getHashedFilename h fontName ext)) d') := by
        intro exts
        induction exts with
        | nil => intro d' hd _; exact hd
        | cons e rest ih =>
            intro d' hd hdf
            simp only [List.foldl_cons]
            exact ih _ (mem_dirNames_dirRename _ _ hd (hdf e (by simp)))
              (fun x hx => hdf x (by simp [hx]))
      have hstep := hfold fontExts d hmem hdiff
      have hcss : ∀ d' : Dir, n ∈ dirNames d' →
          n ∈ dirNames (updateCSSWithHashedFilenames h fontName d') := by
        intro d' hd
        unfold updateCSSWithHashedFilenames
        cases dirLookup d' (fontName ++ ".css".toList) with
        | none => exact hd
        | some css => exact mem_dirNames_dirWrite _ _ hd
      cases uc
      · simpa using hstep
      · simpa using hcss _ hstep

/-- Witness for `C2_amended`: a directory holding two stale sprite
revisions and an unrelated file; after one run exactly the new revision
matches, and the unrelated file survives the font rename. -/
theorem C2_amended_witness :
    List.filter (fun e => spriteTest "sprite".toList e.1)
        (writeSpriteFile true "sprite".toList "h2x".toList "<svg/>".toList
          [("sprite-old9.svg".toList, "a".toList),
           ("sprite.svg".toList, "b".toList),
           ("keep.css".toList, "c".toList)]).1 =
      [(spriteOutName true "sprite".toList "h2x".toList, "<svg/>".toList)] ∧
    "icon.old1.ttf".toList ∈ dirNames (renameFilesWithHash "new1".toList
      "icon".toList false
      [("icon.old1.ttf".toList, "A".toList), ("icon.ttf".toList, "B".toList)]) := by
  constructor
  · exact C2_amended.1 "sprite".toList "h2x".toList "<svg/>".toList _
      (by decide) (by decide)
  · exact C2_amended.2 "new1".toList "icon".toList false _ "icon.old1.ttf".toList
      (by decide) (by decide)

/-! ### C6 -/

lemma dirNames_dirWrite_subset {d : Dir} {name c x : List Char}
    (h : x ∈ dirNames (dirWrite d name c)) : x ∈ dirNames d ∨ x = name := by
  unfold dirWrite at h
  split at h
  · rw [dirNames_overwrite] at h; exact Or.inl h
  · unfold dirNames at h
    rw [List.map_append] at h
    rcases List.mem_append.mp h with h1 | h1
    · exact Or.inl h1
    · simp at h1; exact Or.inr h1

lemma dirNames_dirRemove_subset {d : Dir} {old x : List Char}
    (h : x ∈ dirNames (dirRemove d old)) : x ∈ dirNames d := by
  unfold dirNames dirRemove at h
  rcases List.mem_map.mp h with ⟨e, he, rfl⟩
  exact List.mem_map.mpr ⟨e, List.mem_of_mem_filter he, rfl⟩

lemma dirNames_dirRename_subset {d : Dir} {old new x : List Char}
    (h : x ∈ dirNames (dirRename d old new)) : x ∈ dirNames d ∨ x = new := by
  unfold dirRename at h
  split at h
  · rcases dirNames_dirWrite_subset h with h1 | h1
    · exact Or.inl (dirNames_dirRemove_subset h1)
    · exact Or.inr h1
  · exact Or.inl h

lemma dirNames_updateCSS (h fontName : List Char) (d : Dir) :
    dirNames (updateCSSWithHashedFilenames h fontName d) = dirNames d := by
  unfold updateCSSWithHashedFilenames
  cases hx : dirLookup d (fontName ++ ".css".toList) with
  | none => rfl
  | some css =>
      unfold dirWrite
      rw [hx]
      simp only [Option.isSome_some, if_true]
      exact dirNames_overwrite d _ _

lemma dirNames_fold_rename_subset (h fontName : List Char) :
    ∀ (exts : List (List Char)) (d : Dir) (n : List Char),
      n ∈ dirNames (exts.foldl
        (fun acc ext => dirRename acc (fontName ++ [Char.ofNat 46] ++ ext)
          (getHashedFilename h fontName ext)) d) →
      n ∈ dirNames d ∨ ∃ ext ∈ exts, n = getHashedFilename h fontName ext := by
  intro exts
  induction exts with
  | nil => intro d n hn; exact Or.inl hn
  | cons e rest ih =>
      intro d n hn
      simp only [List.foldl_cons] at hn
      rcases ih _ n hn with hd | ⟨ext, hx, rfl⟩
      · rcases dirNames_dirRename_subset hd with h1 | rfl
        · exact Or.inl h1
        · exact Or.inr ⟨e, by simp, rfl⟩
      · exact Or.inr ⟨ext, by simp [hx], rfl⟩

/-- C6 counterexample: after a run with hash `h1`, the style sheet is still
called `icongen.css` — no hash-qualified css name (`icongen.h1.css` or
`icongen-h1.css`) exists in the directory, and the manifest's `css` field
records the plain name, while the font file did get the hash-qualified
name.  The claim that the generated style sheet is named
`{baseName}[-|.]{hash}.{ext}` like the font files is false. -/
theorem C6_counterexample :
    ("icongen.css".toList ∈ dirNames (renameFilesWithHash "h1".toList
        "icongen".toList true
        [("icongen.css".toList, "x".toList), ("icongen.ttf".toList, "y".toList)]) ∧
     "icongen.h1.css".toList ∉ dirNames (renameFilesWithHash "h1".toList
        "icongen".toList true
        [("icongen.css".toList, "x".toList), ("icongen.ttf".toList, "y".toList)]) ∧
     "icongen-h1.css".toList ∉ dirNames (renameFilesWithHash "h1".toList
        "icongen".toList true
        [("icongen.css".toList, "x".toList), ("icongen.ttf".toList, "y".toList)]) ∧
     "icongen.h1.ttf".toList ∈ dirNames (renameFilesWithHash "h1".toList
        "icongen".toList true
        [("icongen.css".toList, "x".toList), ("icongen.ttf".toList, "y".toList)])) ∧
    ((generateManifest "h1".toList "icongen".toList [] []).2.map Manifest.css) =
      some "icongen.css".toList := by
  constructor
  · decide
  · rfl

/-- C6 amended: with a non-empty hash, the five font files are renamed to
the hash-qualified `{baseName}.{hash}.{ext}`; the style sheet keeps its
plain `{baseName}.css` name — the rename step can only ever create the five
hashed font names, and it preserves a present `{baseName}.css` entry —
and the manifest lists the plain css name next to the hashed font names. -/
theorem C6_amended :
    (∀ (h fontName : List Char) (icons : List (List Char)) (d : Dir), h ≠ [] →
        ∃ m, (generateManifest h fontName icons d).2 = some m ∧
          m.css = fontName ++ ".css".toList ∧
          m.fontTtf = fontName ++ ".".toList ++ h ++ ".ttf".toList ∧
          m.fontWoff = fontName ++ ".".toList ++ h ++ ".woff".toList ∧
          m.fontWoff2 = fontName ++ ".".toList ++ h ++ ".woff2".toList ∧
          m.fontEot = fontName ++ ".".toList ++ h ++ ".eot".toList ∧
          m.fontSvg = fontName ++ ".".toList ++ h ++ ".svg".toList) ∧
    (∀ (h fontName : List Char) (uc : Bool) (d : Dir) (n : List Char),
        n ∈ dirNames (renameFilesWithHash h fontName uc d) →
        n ∈ dirNames d ∨ ∃ ext ∈ fontExts, n = getHashedFilename h fontName ext) ∧
    (∀ (h fontName : List Char) (uc : Bool) (d : Dir),
        fontName ++ ".css".toList ∈ dirNames d →
        fontName ++ ".css".toList ∈ dirNames (renameFilesWithHash h fontName uc d)) := by
  refine ⟨?_, ?_, ?_⟩
  · intro h fontName icons d hh
    unfold generateManifest
    rw [if_neg hh]
    refine ⟨_, rfl, rfl, ?_, ?_, ?_, ?_, ?_⟩ <;>
      simp [getHashedFilename, hh, List.append_assoc]
  · intro h fontName uc d n hn
    unfold renameFilesWithHash at hn
    by_cases hh : h = []
    · simp only [hh, if_true] at hn; exact Or.inl hn
    · simp only [hh, if_false] at hn
      cases uc with
      | false =>
          simp only [Bool.false_eq_true, if_false] at hn
          exact dirNames_fold_rename_subset h fontName fontExts d n hn
      | true =>
          simp only [if_true] at hn
          rw [dirNames_updateCSS] at hn
          exact dirNames_fold_rename_subset h fontName fontExts d n hn
  · intro h fontName uc d hmem
    unfold renameFilesWithHash
    by_cases hh : h = []
    · rw [if_pos hh]; exact hmem
    · simp only [hh, if_false]
      have hdiff : ∀ ext ∈ fontExts,
          fontName ++ ".css".toList ≠ fontName ++ [Char.ofNat 46] ++ ext := by
        intro ext hx heq
        rw [List.append_assoc] at heq
        have h2 := List.append_cancel_left heq
        simp only [fontExts, List.mem_cons, List.not_mem_nil, or_false] at hx
        rcases hx with rfl | rfl | rfl | rfl | rfl <;> simp at h2
      have hfold : ∀ (exts : List (List Char)) (d' : Dir),
          fontName ++ ".css".toList ∈ dirNames d' →
          (∀ ext ∈ exts, fontName ++ ".css".toList ≠ fontName ++ [Char.ofNat 46] ++ ext) →
          fontName ++ ".css".toList ∈ dirNames (exts.foldl
            (fun acc ext => dirRename acc (fontName ++ [Char.ofNat 46] ++ ext)
              (getHashedFilename h fontName ext)) d') := by
        intro exts
        induction exts with
        | nil => intro d' hd _; exact hd
        | cons e rest ih =>
            intro d' hd hdf
            simp only [List.foldl_cons]
            exact ih _ (mem_dirNames_dirRename _ _ hd (hdf e (by simp)))
              (fun x hx => hdf x (by simp [hx]))
      have hstep := hfold fontExts d hmem hdiff
      cases uc
      · simpa using hstep
      · simp only [if_true]
        rw [dirNames_updateCSS]
        simpa using hstep

/-- Witness for `C6_amended` at a concrete run. -/
theorem C6_amended_witness :
    (∃ m, (generateManifest "h1".toList "icongen".toList [] []).2 = some m ∧
        m.css = "icongen".toList ++ ".css".toList ∧
        m.fontTtf = "icongen".toList ++ ".".toList ++ "h1".toList ++ ".ttf".toList ∧
        m.fontWoff = "icongen".toList ++ ".".toList ++ "h1".toList ++ ".woff".toList ∧
        m.fontWoff2 = "icongen".toList ++ ".".toList ++ "h1".toList ++ ".woff2".toList ∧
        m.fontEot = "icongen".toList ++ ".".toList ++ "h1".toList ++ ".eot".toList ∧
        m.fontSvg = "icongen".toList ++ ".".toList ++ "h1".toList ++ ".svg".toList) ∧
    ("icongen".toList ++ ".css".toList ∈ dirNames (renameFilesWithHash "h1".toList
        "icongen".toList true [("icongen.css".toList, "x".toList)])) := by
  constructor
  · exact C6_amended.1 "h1".toList "icongen".toList [] [] (by decide)
  · exact C6_amended.2.2 "h1".toList "icongen".toList true
      [("icongen.css".toList, "x".toList)] (by decide)

/-! ### Supporting lemmas: store access -/

lemma getNode_set_self {st : Store} {i : Nat} (nd : NodeData)
    (h : i < st.length) : getNode (st.set i nd) i = nd := by
  unfold getNode
  rw [List.getD_eq_getElem?_getD, List.getElem?_set_self h]
  rfl

lemma getNode_set_ne {st : Store} {i j : Nat} (nd : NodeData) (h : i ≠ j) :
    getNode (st.set i nd) j = getNode st j := by
  unfold getNode
  rw [List.getD_eq_getElem?_getD, List.getElem?_set_ne h,
    ← List.getD_eq_getElem?_getD]

lemma getNode_setAttrs_self {st : Store} {i : Nat} (a : List (List Char × List Char))
    (h : i < st.length) :
    getNode (setAttrs st i a) i = { getNode st i with attrs := a } :=
  getNode_set_self _ h

lemma getNode_setAttrs_ne {st : Store} {i j : Nat} (a : List (List Char × List Char))
    (h : i ≠ j) : getNode (setAttrs st i a) j = getNode st j :=
  getNode_set_ne _ h

lemma getNode_setChildren_self {st : Store} {i : Nat} (cs : List Nat)
    (h : i < st.length) :
    getNode (setChildren st i cs) i = { getNode st i with children := cs } :=
  getNode_set_self _ h

lemma getNode_setChildren_ne {st : Store} {i j : Nat} (cs : List Nat)
    (h : i ≠ j) : getNode (setChildren st i cs) j = getNode st j :=
  getNode_set_ne _ h

lemma length_setAttrs (st : Store) (i : Nat) (a : List (List Char × List Char)) :
    (setAttrs st i a).length = st.length := List.length_set _ _ _

lemma length_setChildren (st : Store) (i : Nat) (cs : List Nat) :
    (setChildren st i cs).length = st.length := List.length_set _ _ _

lemma getNode_append_lt {st : Store} {j : Nat} (g : NodeData)
    (h : j < st.length) : getNode (st ++ [g]) j = getNode st j := by
  unfold getNode
  rw [List.getD_eq_getElem?_getD, List.getElem?_append_left h,
    ← List.getD_eq_getElem?_getD]

lemma getNode_append_self (st : Store) (g : NodeData) :
    getNode (st ++ [g]) st.length = g := by
  unfold getNode
  rw [List.getD_eq_getElem?_getD, List.getElem?_concat_length]
  rfl

/-- The attributes of a node survive a `setChildren` on any node. -/
lemma attrs_setChildren (st : Store) (i j : Nat) (cs : List Nat) :
    (getNode (setChildren st i cs) j).attrs = (getNode st j).attrs := by
  by_cases h : i = j
  · subst h
    by_cases hl : i < st.length
    · rw [getNode_setChildren_self _ hl]
    · unfold setChildren
      rw [List.set_eq_of_length_le (by omega)]
  · rw [getNode_setChildren_ne _ h]

lemma children_setAttrs (st : Store) (i j : Nat) (a : List (List Char × List Char)) :
    (getNode (setAttrs st i a) j).children = (getNode st j).children := by
  by_cases h : i = j
  · subst h
    by_cases hl : i < st.length
    · rw [getNode_setAttrs_self _ hl]
    · unfold setAttrs
      rw [List.set_eq_of_length_le (by omega)]
  · rw [getNode_setAttrs_ne _ h]

/-! ### C7 -/

/-- C7: in the finalize phase, a resolvable recorded `use` (href resolving
to `rid`, not skipped by the shared-target guard) is replaced at its
position in its parent's child list: with both `x` and `y` present the
replacement is a fresh `g` element whose sole attribute is
`transform="translate(x, y)"` wrapping the attribute-merged target; with
only `x` it carries `transform="translate(x)"`; with neither, the target
itself replaces the `use` with no wrapping group.  The parent's child list
is rewritten by a position-preserving map, so sibling order is kept.
(`rid ≠ uid` rules out a `use` that is its own target, and the index bounds
say that parent and target are real nodes of the store.) -/
theorem C7_finalize_transform (oU : Bool) (counts : List (List Char × Nat))
    (ps : PState) (uid pid rid : Nat) (href : List Char)
    (h1 : getHref (getNode ps.store uid).attrs = some href)
    (h2 : ¬(oU = true ∧ (alookup counts href).getD 0 > 1))
    (h3 : alookup ps.refs href = some rid)
    (hru : rid ≠ uid)
    (hrlt : rid < ps.store.length)
    (hplt : pid < ps.store.length) :
    (∀ xv yv,
        alookup (getNode ps.store uid).attrs "x".toList = some xv →
        alookup (getNode ps.store uid).attrs "y".toList = some yv →
        getNode (finalizeUse oU counts ps (uid, pid)).store ps.store.length =
          ⟨"g".toList,
           [("transform".toList,
             "translate(".toList ++ xv ++ ", ".toList ++ yv ++ [Char.ofNat 41])],
           [rid]⟩ ∧
        (getNode (finalizeUse oU counts ps (uid, pid)).store pid).children =
          (getNode ps.store pid).children.map
            (fun c => if c == uid then ps.store.length else c) ∧
        (getNode (finalizeUse oU counts ps (uid, pid)).store rid).attrs =
          mergeAttrs (getNode ps.store rid).attrs (getNode ps.store uid).attrs) ∧
    (∀ xv,
        alookup (getNode ps.store uid).attrs "x".toList = some xv →
        alookup (getNode ps.store uid).attrs "y".toList = none →
        getNode (finalizeUse oU counts ps (uid, pid)).store ps.store.length =
          ⟨"g".toList,
           [("transform".toList, "translate(".toList ++ xv ++ [Char.ofNat 41])],
           [rid]⟩ ∧
        (getNode (finalizeUse oU counts ps (uid, pid)).store pid).children =
          (getNode ps.store pid).children.map
            (fun c => if c == uid then ps.store.length else c) ∧
        (getNode (finalizeUse oU counts ps (uid, pid)).store rid).attrs =
          mergeAttrs (getNode ps.store rid).attrs (getNode ps.store uid).attrs) ∧
    (alookup (getNode ps.store uid).attrs "x".toList = none →
        (getNode (finalizeUse oU counts ps (uid, pid)).store pid).children =
          (getNode ps.store pid).children.map
            (fun c => if c == uid then rid else c) ∧
        (getNode (finalizeUse oU counts ps (uid, pid)).store rid).attrs =
          mergeAttrs (getNode ps.store rid).attrs (getNode ps.store uid).attrs ∧
        (finalizeUse oU counts ps (uid, pid)).store.length = ps.store.length) := by
  have huA : (getNode (setAttrs ps.store rid
      (mergeAttrs (getNode ps.store rid).attrs (getNode ps.store uid).attrs)) uid).attrs =
      (getNode ps.store uid).attrs := by
    rw [getNode_setAttrs_ne _ hru]
  refine ⟨?_, ?_, ?_⟩
  · intro xv yv hx hy
    simp only [finalizeUse, h1, if_neg h2, h3, huA, hx, hy]
    set merged := mergeAttrs (getNode ps.store rid).attrs (getNode ps.store uid).attrs
      with hmerged
    set st1 := setAttrs ps.store rid merged with hst1
    set g : NodeData :=
      ⟨"g".toList,
       [("transform".toList,
         "translate(".toList ++ xv ++ ", ".toList ++ yv ++ [Char.ofNat 41])],
       [rid]⟩ with hg
    have hlen1 : st1.length = ps.store.length := length_setAttrs _ _ _
    have hplt1 : pid < st1.length := by omega
    have hrlt1 : rid < st1.length := by omega
    have e2 : getNode (st1 ++ [g]) pid = getNode st1 pid := getNode_append_lt _ hplt1
    refine ⟨?_, ?_, ?_⟩
    · rw [getNode_setChildren_ne _ (show pid ≠ ps.store.length by omega),
        ← hlen1, getNode_append_self]
    · rw [getNode_setChildren_self _ (show pid < (st1 ++ [g]).length by
        simp [hlen1]; omega)]
      simp only [e2, hlen1]
      rw [hst1]
      simp only [children_setAttrs]
    · rw [attrs_setChildren, getNode_append_lt _ hrlt1, hst1]
      rw [getNode_setAttrs_self _ hrlt]
  · intro xv hx hy
    simp only [finalizeUse, h1, if_neg h2, h3, huA, hx, hy]
    set merged := mergeAttrs (getNode ps.store rid).attrs (getNode ps.store uid).attrs
      with hmerged
    set st1 := setAttrs ps.store rid merged with hst1
    set g : NodeData :=
      ⟨"g".toList,
       [("transform".toList, "translate(".toList ++ xv ++ [Char.ofNat 41])],
       [rid]⟩ with hg
    have hlen1 : st1.length = ps.store.length := length_setAttrs _ _ _
    have hplt1 : pid < st1.length := by omega
    have hrlt1 : rid < st1.length := by omega
    have e2 : getNode (st1 ++ [g]) pid = getNode st1 pid := getNode_append_lt _ hplt1
    refine ⟨?_, ?_, ?_⟩
    · rw [getNode_setChildren_ne _ (show pid ≠ ps.store.length by omega),
        ← hlen1, getNode_append_self]
    · rw [getNode_setChildren_self _ (show pid < (st1 ++ [g]).length by
        simp [hlen1]; omega)]
      simp only [e2, hlen1]
      rw [hst1]
      simp only [children_setAttrs]
    · rw [attrs_setChildren, getNode_append_lt _ hrlt1, hst1]
      rw [getNode_setAttrs_self _ hrlt]
  · intro hx
    simp only [finalizeUse, h1, if_neg h2, h3, huA, hx]
    set merged := mergeAttrs (getNode ps.store rid).attrs (getNode ps.store uid).attrs
      with hmerged
    set st1 := setAttrs ps.store rid merged with hst1
    have hlen1 : st1.length = ps.store.length := length_setAttrs _ _ _
    have hplt1 : pid < st1.length := by omega
    refine ⟨?_, ?_, ?_⟩
    · rw [getNode_setChildren_self _ hplt1]
      simp only
      rw [hst1]
      simp only [children_setAttrs]
    · rw [attrs_setChildren, hst1, getNode_setAttrs_self _ hrlt]
    · rw [length_setChildren, hlen1]

/-! ### Supporting lemmas: association lists, names, counts -/

lemma alookup_map_set {α : Type} (m : List (List Char × α)) (k k' : List Char)
    (v w : α)
    (h : alookup (List.map (fun e => if e.1 == k then (k, v) else e) m) k' = some w) :
    (k' = k ∧ w = v) ∨ alookup m k' = some w := by
  induction m with
  | nil => simp [alookup] at h
  | cons e rest ih =>
      simp only [List.map_cons] at h
      by_cases he : (e.1 == k) = true
      · rw [if_pos he] at h
        simp only [alookup] at h ⊢
        by_cases hk' : (k == k') = true
        · rw [if_pos hk'] at h
          simp only [Option.some.injEq] at h
          exact Or.inl ⟨(eq_of_beq hk').symm, h.symm⟩
        · rw [if_neg hk'] at h
          rcases ih h with h1 | h1
          · exact Or.inl h1
          · rw [if_neg (by rw [eq_of_beq he]; exact hk')]
            exact Or.inr h1
      · rw [if_neg he] at h
        simp only [alookup] at h ⊢
        by_cases hk' : (e.1 == k') = true
        · rw [if_pos hk'] at h ⊢
          exact Or.inr h
        · rw [if_neg hk'] at h ⊢
          rcases ih h with h1 | h1
          · exact Or.inl h1
          · exact Or.inr h1

lemma alookup_append_single {α : Type} (m : List (List Char × α))
    (k k' : List Char) (v w : α)
    (h : alookup (m ++ [(k, v)]) k' = some w) :
    (k' = k ∧ w = v) ∨ alookup m k' = some w := by
  induction m with
  | nil =>
      simp only [List.nil_append, alookup] at h
      by_cases hk : (k == k') = true
      · rw [if_pos hk] at h
        simp only [Option.some.injEq] at h
        exact Or.inl ⟨(eq_of_beq hk).symm, h.symm⟩
      · rw [if_neg hk] at h
        simp [alookup] at h
  | cons e rest ih =>
      simp only [List.cons_append, alookup] at h ⊢
      by_cases hk' : (e.1 == k') = true
      · rw [if_pos hk'] at h ⊢
        exact Or.inr h
      · rw [if_neg hk'] at h ⊢
        rcases ih h with h1 | h1
        · exact Or.inl h1
        · exact Or.inr h1

lemma alookup_aset_cases {α : Type} (m : List (List Char × α)) (k k' : List Char)
    (v w : α) (h : alookup (aset m k v) k' = some w) :
    (k' = k ∧ w = v) ∨ alookup m k' = some w := by
  unfold aset at h
  split at h
  · exact alookup_map_set m k k' v w h
  · exact alookup_append_single m k k' v w h

lemma name_setAttrs (st : Store) (i j : Nat) (a : List (List Char × List Char)) :
    (getNode (setAttrs st i a) j).name = (getNode st j).name := by
  by_cases h : i = j
  · subst h
    by_cases hl : i < st.length
    · rw [getNode_setAttrs_self _ hl]
    · unfold setAttrs
      rw [List.set_eq_of_length_le (by omega)]
  · rw [getNode_setAttrs_ne _ h]

lemma name_setChildren (st : Store) (i j : Nat) (cs : List Nat) :
    (getNode (setChildren st i cs) j).name = (getNode st j).name := by
  by_cases h : i = j
  · subst h
    by_cases hl : i < st.length
    · rw [getNode_setChildren_self _ hl]
    · unfold setChildren
      rw [List.set_eq_of_length_le (by omega)]
  · rw [getNode_setChildren_ne _ h]

/-- Number of occurrences of a child id in a child list. -/
def countOcc (x : Nat) (l : List Nat) : Nat :=
  (l.filter (fun c => c == x)).length

lemma countOcc_nil (x : Nat) : countOcc x [] = 0 := rfl

lemma countOcc_cons (x a : Nat) (l : List Nat) :
    countOcc x (a :: l) = (if a = x then 1 else 0) + countOcc x l := by
  unfold countOcc
  simp only [List.filter_cons]
  by_cases h : a = x
  · simp [h]; omega
  · simp [h]

lemma countOcc_filter_ne (x n : Nat) (l : List Nat) (h : x ≠ n) :
    countOcc x (List.filter (fun c => !(c == n)) l) = countOcc x l := by
  induction l with
  | nil => rfl
  | cons a rest ih =>
      simp only [List.filter_cons]
      by_cases ha : a = n
      · subst ha
        simp only [beq_self_eq_true, Bool.not_true, Bool.false_eq_true, if_false]
        rw [ih, countOcc_cons, if_neg (by omega)]
        omega
      · simp only [show ((a == n) : Bool) = false by simp [ha], Bool.not_false,
          if_true]
        rw [countOcc_cons, countOcc_cons, ih]

lemma countOcc_map_replace (x u rep : Nat) (l : List Nat) (h1 : u ≠ x)
    (h2 : rep ≠ x) :
    countOcc x (l.map (fun c => if c == u then rep else c)) = countOcc x l := by
  induction l with
  | nil => rfl
  | cons a rest ih =>
      simp only [List.map_cons]
      rw [countOcc_cons, countOcc_cons, ih]
      congr 1
      by_cases ha : a = u
      · subst ha
        have e1 : (if ((a == a) : Bool) then rep else a) = rep := by simp
        rw [e1, if_neg h2, if_neg (show ¬ a = x by omega)]
      · have e1 : (if ((a == u) : Bool) then rep else a) = a := by simp [ha]
        rw [e1]

/-! ### Supporting lemmas: the collected `use` list -/

mutual

lemma collectFrom_name (st : Store) (s : Snap) :
    ∀ uid p, (uid, p) ∈ collectFrom st s →
      (getNode st uid).name = "use".toList := by
  match s with
  | .mk nid children =>
      intro uid p h
      exact collectList_name st nid children uid p h

lemma collectList_name (st : Store) (pid : Nat) (ts : List Snap) :
    ∀ uid p, (uid, p) ∈ collectList st pid ts →
      (getNode st uid).name = "use".toList := by
  match ts with
  | [] => intro uid p h; simp [collectList] at h
  | s :: rest =>
      intro uid p h
      simp only [collectList, List.mem_append] at h
      rcases h with (h | h) | h
      · match s with
        | .mk cid cch =>
            simp only at h
            split at h
            · simp only [List.mem_singleton, Prod.mk.injEq] at h
              rw [h.1]
              simp_all
            · simp at h
      · exact collectFrom_name st s uid p h
      · exact collectList_name st pid rest uid p h

end

/-- The `uses` list of a run records only `use`-named nodes. -/
lemma runPlugin_uses_name (oU : Bool) (doc : List XTree) (uid p : Nat)
    (h : (uid, p) ∈ (runPlugin oU doc).uses) :
    (getNode (runPlugin oU doc).init uid).name = "use".toList := by
  unfold runPlugin at h ⊢
  simp only at h ⊢
  split at h
  · exact collectFrom_name _ _ _ _ h
  · simp at h

/-! ### Invariant: an untouched `use` node

For a fixed node `uid` (with parent `p`) that carries no `id` attribute,
the plugin's callbacks never modify its attributes or its name, never
remove it from its parent's child list, and never register it as a
reference target. -/

def useUntouched (init : Store) (uid p : Nat) (ps : PState) : Prop :=
  (getNode ps.store uid).attrs = (getNode init uid).attrs ∧
  (getNode ps.store uid).name = (getNode init uid).name ∧
  uid ∈ (getNode ps.store p).children ∧
  (∀ h' n, alookup ps.refs h' = some n → n ≠ uid) ∧
  init.length ≤ ps.store.length

lemma useUntouched_setAttrs {init : Store} {uid p nid : Nat} {ps : PState}
    (a : List (List Char × List Char)) (hnu : nid ≠ uid)
    (h : useUntouched init uid p ps) :
    useUntouched init uid p { ps with store := setAttrs ps.store nid a } := by
  obtain ⟨h1, h2, h3, h4, h5⟩ := h
  refine ⟨?_, ?_, ?_, h4, ?_⟩
  · rw [getNode_setAttrs_ne _ hnu]; exact h1
  · rw [name_setAttrs]; exact h2
  · rw [children_setAttrs]; exact h3
  · rw [length_setAttrs]; exact h5

lemma mem_map_replace (x u rep : Nat) (l : List Nat) (hmem : x ∈ l)
    (hne : x ≠ u) : x ∈ l.map (fun c => if c == u then rep else c) := by
  refine List.mem_map.mpr ⟨x, hmem, ?_⟩
  simp [hne]

lemma useUntouched_removeChild {init : Store} {uid p nid pid : Nat} {ps : PState}
    (hnu : nid ≠ uid) (h : useUntouched init uid p ps) :
    useUntouched init uid p
      ⟨setChildren ps.store pid
        (List.filter (fun c => !(c == nid)) (getNode ps.store pid).children),
       ps.refs⟩ := by
  obtain ⟨h1, h2, h3, h4, h5⟩ := h
  refine ⟨?_, ?_, ?_, h4, ?_⟩
  · rw [attrs_setChildren]; exact h1
  · rw [name_setChildren]; exact h2
  · by_cases hpp : pid = p
    · subst hpp
      by_cases hl : pid < ps.store.length
      · rw [getNode_setChildren_self _ hl]
        exact List.mem_filter.mpr ⟨h3, by simp [Ne.symm hnu]⟩
      · unfold setChildren
        rw [List.set_eq_of_length_le (by omega)]
        exact h3
    · rw [getNode_setChildren_ne _ hpp]; exact h3
  · rw [length_setChildren]; exact h5

lemma useUntouched_append {init : Store} {uid p : Nat} {ps : PState}
    (g : NodeData) (hUid : uid < init.length) (hP : p < init.length)
    (h : useUntouched init uid p ps) :
    useUntouched init uid p { ps with store := ps.store ++ [g] } := by
  obtain ⟨h1, h2, h3, h4, h5⟩ := h
  have hu : uid < ps.store.length := lt_of_lt_of_le hUid h5
  have hp : p < ps.store.length := lt_of_lt_of_le hP h5
  refine ⟨?_, ?_, ?_, h4, ?_⟩
  · rw [getNode_append_lt _ hu]; exact h1
  · rw [getNode_append_lt _ hu]; exact h2
  · rw [getNode_append_lt _ hp]; exact h3
  · simp only [List.length_append, List.length_cons, List.length_nil]
    omega

lemma useUntouched_setChildrenMap {init : Store} {uid p : Nat} (pid u rep : Nat)
    {ps : PState} (hne : u ≠ uid) (h : useUntouched init uid p ps) :
    useUntouched init uid p
      ⟨setChildren ps.store pid
        ((getNode ps.store pid).children.map (fun c => if c == u then rep else c)),
       ps.refs⟩ := by
  obtain ⟨h1, h2, h3, h4, h5⟩ := h
  refine ⟨?_, ?_, ?_, h4, ?_⟩
  · rw [attrs_setChildren]; exact h1
  · rw [name_setChildren]; exact h2
  · by_cases hpp : pid = p
    · subst hpp
      by_cases hl : pid < ps.store.length
      · rw [getNode_setChildren_self _ hl]
        exact mem_map_replace _ _ _ _ h3 (Ne.symm hne)
      · unfold setChildren
        rw [List.set_eq_of_length_le (by omega)]
        exact h3
    · rw [getNode_setChildren_ne _ hpp]; exact h3
  · rw [length_setChildren]; exact h5

lemma enterCB_useUntouched (oU : Bool) (counts : List (List Char × Nat))
    (nid pid : Nat) {init : Store} {uid p : Nat} {ps : PState}
    (hNoId : alookup (getNode init uid).attrs "id".toList = none)
    (h : useUntouched init uid p ps) :
    useUntouched init uid p (enterCB oU counts nid pid ps) := by
  cases hid : alookup (getNode ps.store nid).attrs "id".toList with
  | none => simp only [enterCB, hid]; exact h
  | some idv =>
      have hnu : nid ≠ uid := by
        intro he
        subst he
        rw [h.1, hNoId] at hid
        cases hid
      cases hc : alookup counts ([Char.ofNat 35] ++ idv) with
      | none => simp only [enterCB, hid, hc]; exact h
      | some count =>
          simp only [enterCB, hid, hc]
          have h1 : useUntouched init uid p
              ⟨ps.store, aset ps.refs ([Char.ofNat 35] ++ idv) nid⟩ := by
            obtain ⟨a1, a2, a3, a4, a5⟩ := h
            refine ⟨a1, a2, a3, ?_, a5⟩
            intro h' n hl
            rcases alookup_aset_cases _ _ _ _ _ hl with ⟨_, rfl⟩ | hold
            · exact hnu
            · exact a4 h' n hold
          split
          · split
            · exact useUntouched_removeChild hnu (useUntouched_setAttrs _ hnu h1)
            · exact useUntouched_removeChild hnu h1
          · split
            · exact useUntouched_setAttrs _ hnu h1
            · exact h1

lemma exitCB_useUntouched (oU : Bool) (nid pid : Nat) {init : Store}
    {uid p : Nat} {ps : PState}
    (hNd : (getNode init uid).name ≠ "defs".toList)
    (h : useUntouched init uid p ps) :
    useUntouched init uid p (exitCB oU nid pid ps) := by
  unfold exitCB
  by_cases hd : ((getNode ps.store nid).name == "defs".toList) = true
  · have hnu : nid ≠ uid := by
      intro he
      subst he
      rw [h.2.1] at hd
      exact hNd (by simpa using hd)
    rw [if_pos hd]
    split
    · exact useUntouched_removeChild hnu h
    · exact h
  · rw [if_neg hd]
    exact h

mutual

lemma walkSnap_useUntouched (oU : Bool) (counts : List (List Char × Nat))
    {init : Store} {uid p : Nat}
    (hNoId : alookup (getNode init uid).attrs "id".toList = none)
    (hNd : (getNode init uid).name ≠ "defs".toList) :
    ∀ (s : Snap) (pid : Nat) (ps : PState), useUntouched init uid p ps →
      useUntouched init uid p (walkSnap oU counts pid s ps) := by
  intro s pid ps h
  match s with
  | .mk nid children =>
      simp only [walkSnap]
      exact exitCB_useUntouched oU nid pid hNd
        (walkList_useUntouched oU counts hNoId hNd children nid _
          (enterCB_useUntouched oU counts nid pid hNoId h))

lemma walkList_useUntouched (oU : Bool) (counts : List (List Char × Nat))
    {init : Store} {uid p : Nat}
    (hNoId : alookup (getNode init uid).attrs "id".toList = none)
    (hNd : (getNode init uid).name ≠ "defs".toList) :
    ∀ (ts : List Snap) (pid : Nat) (ps : PState), useUntouched init uid p ps →
      useUntouched init uid p (walkList oU counts pid ts ps) := by
  intro ts pid ps h
  match ts with
  | [] => simpa only [walkList] using h
  | s :: rest =>
      simp only [walkList]
      exact walkList_useUntouched oU counts hNoId hNd rest pid _
        (walkSnap_useUntouched oU counts hNoId hNd s pid ps h)

end

lemma finalizeUse_useUntouched {init : Store} {rW : List (List Char × Nat)}
    (oU : Bool) (counts : List (List Char × Nat)) {uid p : Nat}
    (hUid : uid < init.length) (hP : p < init.length)
    (hNoId : alookup (getNode init uid).attrs "id".toList = none)
    (hSkip : getHref (getNode init uid).attrs = none ∨
      ∃ h0, getHref (getNode init uid).attrs = some h0 ∧
        (alookup rW h0 = none ∨ (oU = true ∧ (alookup counts h0).getD 0 > 1)))
    (u' p' : Nat) (ps : PState) (hrefs : ps.refs = rW)
    (h : useUntouched init uid p ps) :
    useUntouched init uid p (finalizeUse oU counts ps (u', p')) ∧
      (finalizeUse oU counts ps (u', p')).refs = rW := by
  by_cases hu : u' = uid
  · subst hu
    rcases hSkip with hs | ⟨h0, hs, hcase⟩
    · simp only [finalizeUse, h.1, hs]
      exact ⟨h, hrefs⟩
    · rcases hcase with hnone | ⟨hoU, hgt⟩
      · simp only [finalizeUse, h.1, hs, hrefs, hnone]
        split
        · exact ⟨h, hrefs⟩
        · exact ⟨h, hrefs⟩
      · simp only [finalizeUse, h.1, hs]
        rw [if_pos ⟨hoU, hgt⟩]
        exact ⟨h, hrefs⟩
  · cases hh : getHref (getNode ps.store u').attrs with
    | none =>
        simp only [finalizeUse, hh]
        exact ⟨h, hrefs⟩
    | some href =>
        by_cases hskip : oU = true ∧ (alookup counts href).getD 0 > 1
        · simp only [finalizeUse, hh]
          rw [if_pos hskip]
          exact ⟨h, hrefs⟩
        · cases hr : alookup ps.refs href with
          | none =>
              simp only [finalizeUse, hh]
              rw [if_neg hskip]
              simp only [hr]
              exact ⟨h, hrefs⟩
          | some rid' =>
              have hrne : rid' ≠ uid := h.2.2.2.1 href rid' (hrefs ▸ hr)
              simp only [finalizeUse, hh]
              rw [if_neg hskip]
              simp only [hr]
              have hQ1 : useUntouched init uid p
                  ⟨setAttrs ps.store rid'
                      (mergeAttrs (getNode ps.store rid').attrs
                        (getNode ps.store u').attrs),
                   ps.refs⟩ :=
                useUntouched_setAttrs _ hrne h
              cases hx : alookup (getNode (setAttrs ps.store rid'
                  (mergeAttrs (getNode ps.store rid').attrs
                    (getNode ps.store u').attrs)) u').attrs "x".toList with
              | none =>
                  simp only [hx]
                  exact ⟨useUntouched_setChildrenMap _ _ _ hu hQ1, hrefs⟩
              | some xv =>
                  cases hy : alookup (getNode (setAttrs ps.store rid'
                      (mergeAttrs (getNode ps.store rid').attrs
                        (getNode ps.store u').attrs)) u').attrs "y".toList with
                  | none =>
                      simp only [hx, hy]
                      exact ⟨useUntouched_setChildrenMap _ _ _ hu
                        (useUntouched_append _ hUid hP hQ1), hrefs⟩
                  | some yv =>
                      simp only [hx, hy]
                      exact ⟨useUntouched_setChildrenMap _ _ _ hu
                        (useUntouched_append _ hUid hP hQ1), hrefs⟩

lemma foldl_finalize_useUntouched {init : Store} {rW : List (List Char × Nat)}
    (oU : Bool) (counts : List (List Char × Nat)) {uid p : Nat}
    (hUid : uid < init.length) (hP : p < init.length)
    (hNoId : alookup (getNode init uid).attrs "id".toList = none)
    (hSkip : getHref (getNode init uid).attrs = none ∨
      ∃ h0, getHref (getNode init uid).attrs = some h0 ∧
        (alookup rW h0 = none ∨ (oU = true ∧ (alookup counts h0).getD 0 > 1))) :
    ∀ (usesL : List (Nat × Nat)) (ps : PState), ps.refs = rW →
      useUntouched init uid p ps →
      useUntouched init uid p (usesL.foldl (finalizeUse oU counts) ps) := by
  intro usesL
  induction usesL with
  | nil => intro ps _ h; exact h
  | cons up rest ih =>
      intro ps hrefs h
      simp only [List.foldl_cons]
      have hstep := finalizeUse_useUntouched oU counts hUid hP hNoId hSkip up.1 up.2
        ps hrefs h
      exact ih _ hstep.2 hstep.1

/-! ### C9 -/

/-- C9: a recorded `use` element whose reference does not resolve to any
registered definition — or which carries no (truthy) `href`/`xlink:href`
at all — is left untouched by the whole transform, in either mode: its
attributes and name are unchanged and it stays in its parent's child list.
(The hypotheses say `uid` is a recorded `use` with no `id` attribute,
located at a real store index under parent `p`; totality of `runPlugin`
reflects that the broken reference never raises.) -/
theorem C9_unresolved_use_untouched (oU : Bool) (doc : List XTree) (uid p : Nat)
    (hmem : (uid, p) ∈ (runPlugin oU doc).uses)
    (hNoId : alookup (getNode (runPlugin oU doc).init uid).attrs "id".toList = none)
    (hChild : uid ∈ (getNode (runPlugin oU doc).init p).children)
    (hUid : uid < (runPlugin oU doc).init.length)
    (hP : p < (runPlugin oU doc).init.length)
    (hSkip : getHref (getNode (runPlugin oU doc).init uid).attrs = none ∨
      ∃ h0, getHref (getNode (runPlugin oU doc).init uid).attrs = some h0 ∧
        alookup (runPlugin oU doc).afterWalk.refs h0 = none) :
    (getNode (runPlugin oU doc).final.store uid).attrs =
      (getNode (runPlugin oU doc).init uid).attrs ∧
    (getNode (runPlugin oU doc).final.store uid).name =
      (getNode (runPlugin oU doc).init uid).name ∧
    uid ∈ (getNode (runPlugin oU doc).final.store p).children := by
  have hUse : (getNode (runPlugin oU doc).init uid).name = "use".toList :=
    runPlugin_uses_name oU doc uid p hmem
  have hNd : (getNode (runPlugin oU doc).init uid).name ≠ "defs".toList := by
    rw [hUse]; decide
  have hQ0 : useUntouched (runPlugin oU doc).init uid p
      ⟨(runPlugin oU doc).init, []⟩ := by
    refine ⟨rfl, rfl, hChild, ?_, le_refl _⟩
    intro h' n hl
    simp [alookup] at hl
  have hAW : (runPlugin oU doc).afterWalk =
      walkList oU (runPlugin oU doc).counts (runPlugin oU doc).rootId
        (runPlugin oU doc).rootChildren ⟨(runPlugin oU doc).init, []⟩ := rfl
  have hQw : useUntouched (runPlugin oU doc).init uid p
      (runPlugin oU doc).afterWalk := by
    rw [hAW]
    exact walkList_useUntouched oU (runPlugin oU doc).counts hNoId hNd
      (runPlugin oU doc).rootChildren (runPlugin oU doc).rootId _ hQ0
  have hSkip' : getHref (getNode (runPlugin oU doc).init uid).attrs = none ∨
      ∃ h0, getHref (getNode (runPlugin oU doc).init uid).attrs = some h0 ∧
        (alookup (runPlugin oU doc).afterWalk.refs h0 = none ∨
          (oU = true ∧ (alookup (runPlugin oU doc).counts h0).getD 0 > 1)) := by
    rcases hSkip with hs | ⟨h0, hs1, hs2⟩
    · exact Or.inl hs
    · exact Or.inr ⟨h0, hs1, Or.inl hs2⟩
  have hFin : (runPlugin oU doc).final =
      (runPlugin oU doc).uses.foldl
        (finalizeUse oU (runPlugin oU doc).counts)
        (runPlugin oU doc).afterWalk := rfl
  have hQf : useUntouched (runPlugin oU doc).init uid p
      (runPlugin oU doc).final := by
    rw [hFin]
    exact foldl_finalize_useUntouched oU (runPlugin oU doc).counts hUid hP hNoId
      hSkip' (runPlugin oU doc).uses (runPlugin oU doc).afterWalk rfl hQw
  exact ⟨hQf.1, hQf.2.1, hQf.2.2.1⟩

/-- The concrete document for the `C9` witness: an `svg` holding one `use`
whose reference resolves nowhere, and one `use` with no reference at all. -/
def c9doc : List XTree :=
  [.elem "svg".toList []
    [.elem "use".toList [("href".toList, "#zzz".toList)] [],
     .elem "use".toList [] []]]

/-- Witness for `C9_unresolved_use_untouched`: both the dangling reference
(node 2) and the reference-free `use` (node 3) survive unchanged. -/
theorem C9_unresolved_use_untouched_witness :
    ((getNode (runPlugin true c9doc).final.store 2).attrs =
        (getNode (runPlugin true c9doc).init 2).attrs ∧
      (getNode (runPlugin true c9doc).final.store 2).name =
        (getNode (runPlugin true c9doc).init 2).name ∧
      2 ∈ (getNode (runPlugin true c9doc).final.store 1).children) ∧
    ((getNode (runPlugin false c9doc).final.store 3).attrs =
        (getNode (runPlugin false c9doc).init 3).attrs ∧
      (getNode (runPlugin false c9doc).final.store 3).name =
        (getNode (runPlugin false c9doc).init 3).name ∧
      3 ∈ (getNode (runPlugin false c9doc).final.store 1).children) := by
  constructor
  · exact C9_unresolved_use_untouched true c9doc 2 1 (by decide) (by decide)
      (by decide) (by decide) (by decide)
      (Or.inr ⟨"#zzz".toList, by decide, by decide⟩)
  · exact C9_unresolved_use_untouched false c9doc 3 1 (by decide) (by decide)
      (by decide) (by decide) (by decide) (Or.inl (by decide))

/-- Concrete finalize-phase state for the `C7` witness: node 1 is the
parent (`svg`), node 2 the registered target, node 3 a resolvable `use`
carrying `x="10"` and `y="5"`. -/
def c7ps : PState :=
  ⟨[⟨"#root".toList, [], [1]⟩,
    ⟨"svg".toList, [], [2, 3]⟩,
    ⟨"path".toList, [("id".toList, "a".toList), ("d".toList, "M0".toList)], []⟩,
    ⟨"use".toList,
      [("href".toList, "#a".toList), ("x".toList, "10".toList),
       ("y".toList, "5".toList)], []⟩],
   [("#a".toList, 2)]⟩

/-- Witness for `C7_finalize_transform` at a concrete state. -/
theorem C7_finalize_transform_witness :
    getNode (finalizeUse true [("#a".toList, 1)] c7ps (3, 1)).store
        c7ps.store.length =
      ⟨"g".toList,
       [("transform".toList,
         "translate(".toList ++ "10".toList ++ ", ".toList ++ "5".toList ++
           [Char.ofNat 41])],
       [2]⟩ ∧
    (getNode (finalizeUse true [("#a".toList, 1)] c7ps (3, 1)).store 1).children =
      (getNode c7ps.store 1).children.map
        (fun c => if c == 3 then c7ps.store.length else c) ∧
    (getNode (finalizeUse true [("#a".toList, 1)] c7ps (3, 1)).store 2).attrs =
      mergeAttrs (getNode c7ps.store 2).attrs (getNode c7ps.store 3).attrs := by
  exact (C7_finalize_transform true [("#a".toList, 1)] c7ps 3 1 2 "#a".toList
    (by decide) (by decide) (by decide) (by decide) (by decide) (by decide)).1
    "10".toList "5".toList (by decide) (by decide)

/-! ### Invariant: unique-only mode preserves shared targets

In UniqueOnly mode the walk never edits attributes at all, and a target
whose reference count exceeds 1 is never detached; the registry only ever
maps the key `#id` to a node whose (stable) `id` attribute is `id`. -/

lemma getNode_ge {st : Store} {q : Nat} (h : st.length ≤ q) :
    getNode st q = default := by
  unfold getNode
  exact List.getD_eq_default _ _ h

def uniqueInv (init : Store) (rid : Nat) (ps : PState) : Prop :=
  (∀ q, (getNode ps.store q).attrs = (getNode init q).attrs) ∧
  (∀ q, (getNode ps.store q).name = (getNode init q).name) ∧
  (∀ q, countOcc rid (getNode ps.store q).children =
    countOcc rid (getNode init q).children) ∧
  (∀ h' n, alookup ps.refs h' = some n →
      ∃ idv, alookup (getNode init n).attrs "id".toList = some idv ∧
        h' = [Char.ofNat 35] ++ idv) ∧
  ps.store.length = init.length

lemma uniqueInv_removeChild {init : Store} {rid nid pid : Nat} {ps : PState}
    (hne : nid ≠ rid) (h : uniqueInv init rid ps) :
    uniqueInv init rid
      ⟨setChildren ps.store pid
        (List.filter (fun c => !(c == nid)) (getNode ps.store pid).children),
       ps.refs⟩ := by
  obtain ⟨h1, h2, h3, h4, h5⟩ := h
  refine ⟨?_, ?_, ?_, h4, ?_⟩
  · intro q; rw [attrs_setChildren]; exact h1 q
  · intro q; rw [name_setChildren]; exact h2 q
  · intro q
    by_cases hq : pid = q
    · subst hq
      by_cases hl : pid < ps.store.length
      · rw [getNode_setChildren_self _ hl]
        simp only
        rw [countOcc_filter_ne _ _ _ (Ne.symm hne)]
        exact h3 pid
      · unfold setChildren
        rw [List.set_eq_of_length_le (by omega)]
        exact h3 pid
    · rw [getNode_setChildren_ne _ hq]; exact h3 q
  · rw [length_setChildren]; exact h5

lemma enterCB_uniqueInv (counts : List (List Char × Nat)) (nid pid : Nat)
    {init : Store} {rid : Nat} {idv : List Char} {c : Nat} {ps : PState}
    (hRid : alookup (getNode init rid).attrs "id".toList = some idv)
    (hc : alookup counts ([Char.ofNat 35] ++ idv) = some c) (hcgt : c > 1)
    (h : uniqueInv init rid ps) :
    uniqueInv init rid (enterCB true counts nid pid ps) := by
  cases hid : alookup (getNode ps.store nid).attrs "id".toList with
  | none => simp only [enterCB, hid]; exact h
  | some idn =>
      cases hcn : alookup counts ([Char.ofNat 35] ++ idn) with
      | none => simp only [enterCB, hid, hcn]; exact h
      | some cn =>
          simp only [enterCB, hid, hcn]
          have h1 : uniqueInv init rid
              ⟨ps.store, aset ps.refs ([Char.ofNat 35] ++ idn) nid⟩ := by
            obtain ⟨a1, a2, a3, a4, a5⟩ := h
            refine ⟨a1, a2, a3, ?_, a5⟩
            intro h' n hl
            rcases alookup_aset_cases _ _ _ _ _ hl with ⟨hk, rfl⟩ | hold
            · refine ⟨idn, ?_, hk⟩
              rw [← a1 n]
              exact hid
            · exact a4 h' n hold
          have hfalse : (true = false ∧ cn > 1) = False := by simp
          simp only [hfalse, if_false]
          split
          · rename_i hcond
            have hcn1 : cn = 1 := hcond.2
            have hne : nid ≠ rid := by
              intro he
              subst he
              rw [h.1 nid, hRid] at hid
              cases hid
              rw [hc] at hcn
              cases hcn
              omega
            exact uniqueInv_removeChild hne h1
          · exact h1

lemma exitCB_uniqueInv (nid pid : Nat) {init : Store} {rid : Nat} {ps : PState}
    (hRname : (getNode init rid).name ≠ "defs".toList)
    (h : uniqueInv init rid ps) :
    uniqueInv init rid (exitCB true nid pid ps) := by
  unfold exitCB
  by_cases hd : ((getNode ps.store nid).name == "defs".toList) = true
  · have hne : nid ≠ rid := by
      intro he
      subst he
      rw [h.2.1 nid] at hd
      exact hRname (by simpa using hd)
    rw [if_pos hd]
    split
    · exact uniqueInv_removeChild hne h
    · exact h
  · rw [if_neg hd]
    exact h

mutual

lemma walkSnap_uniqueInv (counts : List (List Char × Nat)) {init : Store}
    {rid : Nat} {idv : List Char} {c : Nat}
    (hRid : alookup (getNode init rid).attrs "id".toList = some idv)
    (hc : alookup counts ([Char.ofNat 35] ++ idv) = some c) (hcgt : c > 1)
    (hRname : (getNode init rid).name ≠ "defs".toList) :
    ∀ (s : Snap) (pid : Nat) (ps : PState), uniqueInv init rid ps →
      uniqueInv init rid (walkSnap true counts pid s ps) := by
  intro s pid ps h
  match s with
  | .mk nid children =>
      simp only [walkSnap]
      exact exitCB_uniqueInv nid pid hRname
        (walkList_uniqueInv counts hRid hc hcgt hRname children nid _
          (enterCB_uniqueInv counts nid pid hRid hc hcgt h))

lemma walkList_uniqueInv (counts : List (List Char × Nat)) {init : Store}
    {rid : Nat} {idv : List Char} {c : Nat}
    (hRid : alookup (getNode init rid).attrs "id".toList = some idv)
    (hc : alookup counts ([Char.ofNat 35] ++ idv) = some c) (hcgt : c > 1)
    (hRname : (getNode init rid).name ≠ "defs".toList) :
    ∀ (ts : List Snap) (pid : Nat) (ps : PState), uniqueInv init rid ps →
      uniqueInv init rid (walkList true counts pid ts ps) := by
  intro ts pid ps h
  match ts with
  | [] => simpa only [walkList] using h
  | s :: rest =>
      simp only [walkList]
      exact walkList_uniqueInv counts hRid hc hcgt hRname rest pid _
        (walkSnap_uniqueInv counts hRid hc hcgt hRname s pid ps h)

end

def uniqueFinInv (init : Store) (rW : List (List Char × Nat)) (rid : Nat)
    (ps : PState) : Prop :=
  ps.refs = rW ∧
  (getNode ps.store rid).attrs = (getNode init rid).attrs ∧
  (∀ q, countOcc rid (getNode ps.store q).children =
    countOcc rid (getNode init q).children) ∧
  init.length ≤ ps.store.length

lemma uniqueFinInv_setChildrenMap {init : Store} {rW : List (List Char × Nat)}
    {rid : Nat} (pid u rep : Nat) {ps : PState} (hu : u ≠ rid) (hr : rep ≠ rid)
    (h : uniqueFinInv init rW rid ps) :
    uniqueFinInv init rW rid
      ⟨setChildren ps.store pid
        ((getNode ps.store pid).children.map (fun c => if c == u then rep else c)),
       ps.refs⟩ := by
  obtain ⟨h1, h2, h3, h4⟩ := h
  refine ⟨h1, ?_, ?_, ?_⟩
  · rw [attrs_setChildren]; exact h2
  · intro q
    by_cases hq : pid = q
    · subst hq
      by_cases hl : pid < ps.store.length
      · rw [getNode_setChildren_self _ hl]
        simp only
        rw [countOcc_map_replace _ _ _ _ hu hr]
        exact h3 pid
      · unfold setChildren
        rw [List.set_eq_of_length_le (by omega)]
        exact h3 pid
    · rw [getNode_setChildren_ne _ hq]; exact h3 q
  · rw [length_setChildren]; exact h4

lemma uniqueFinInv_append {init : Store} {rW : List (List Char × Nat)}
    {rid : Nat} {ps : PState} (g : NodeData) (hrl : rid < init.length)
    (hg : countOcc rid g.children = 0)
    (h : uniqueFinInv init rW rid ps) :
    uniqueFinInv init rW rid ⟨ps.store ++ [g], ps.refs⟩ := by
  obtain ⟨h1, h2, h3, h4⟩ := h
  refine ⟨h1, ?_, ?_, ?_⟩
  · rw [getNode_append_lt _ (by omega)]; exact h2
  · intro q
    rcases lt_trichotomy q ps.store.length with hq | hq | hq
    · rw [getNode_append_lt _ hq]; exact h3 q
    · subst hq
      rw [getNode_append_self, hg, getNode_ge (by omega)]
      rfl
    · have e1 : getNode (ps.store ++ [g]) q = default :=
        getNode_ge (by
          simp only [List.length_append, List.length_cons, List.length_nil]
          omega)
      have e2 : getNode init q = default := getNode_ge (by omega)
      show countOcc rid (getNode (ps.store ++ [g]) q).children = _
      rw [e1, e2]
  · simp only [List.length_append, List.length_cons, List.length_nil]
    omega

lemma finalizeUse_uniqueFinInv {init : Store} {rW : List (List Char × Nat)}
    {rid : Nat} {idv : List Char} {c : Nat} (counts : List (List Char × Nat))
    (hRW : ∀ h' n, alookup rW h' = some n →
      ∃ idv', alookup (getNode init n).attrs "id".toList = some idv' ∧
        h' = [Char.ofNat 35] ++ idv')
    (hRid : alookup (getNode init rid).attrs "id".toList = some idv)
    (hc : alookup counts ([Char.ofNat 35] ++ idv) = some c) (hcgt : c > 1)
    (hRidLt : rid < init.length)
    (u' p' : Nat) (hu'name : (getNode init u').name = "use".toList)
    (hRnameUse : (getNode init rid).name ≠ "use".toList)
    (ps : PState) (h : uniqueFinInv init rW rid ps) :
    uniqueFinInv init rW rid (finalizeUse true counts ps (u', p')) := by
  have hu'rid : u' ≠ rid := by
    intro he
    subst he
    exact hRnameUse hu'name
  cases hh : getHref (getNode ps.store u').attrs with
  | none => simp only [finalizeUse, hh]; exact h
  | some href =>
      simp only [finalizeUse, hh]
      split
      · exact h
      · rename_i hskip
        cases hr : alookup ps.refs href with
        | none =>
            simp only [hr]
            exact h
        | some rid' =>
            have hne : rid' ≠ rid := by
              intro he
              subst he
              rcases hRW href rid' (h.1 ▸ hr) with ⟨idv', hid', hkey⟩
              rw [hRid] at hid'
              cases hid'
              rw [hkey] at hskip
              refine hskip ⟨?_, ?_⟩
              · trivial
              · rw [hc]; exact hcgt
            simp only [hr]
            have hQ1 : uniqueFinInv init rW rid
                ⟨setAttrs ps.store rid'
                    (mergeAttrs (getNode ps.store rid').attrs
                      (getNode ps.store u').attrs),
                 ps.refs⟩ := by
              obtain ⟨h1, h2, h3, h4⟩ := h
              refine ⟨h1, ?_, ?_, ?_⟩
              · rw [getNode_setAttrs_ne _ hne]; exact h2
              · intro q; rw [children_setAttrs]; exact h3 q
              · rw [length_setAttrs]; exact h4
            cases hx : alookup (getNode (setAttrs ps.store rid'
                (mergeAttrs (getNode ps.store rid').attrs
                  (getNode ps.store u').attrs)) u').attrs "x".toList with
            | none =>
                simp only [hx]
                exact uniqueFinInv_setChildrenMap _ _ _ hu'rid hne hQ1
            | some xv =>
                cases hy : alookup (getNode (setAttrs ps.store rid'
                    (mergeAttrs (getNode ps.store rid').attrs
                      (getNode ps.store u').attrs)) u').attrs "y".toList with
                | none =>
                    simp only [hx, hy]
                    refine uniqueFinInv_setChildrenMap _ _ _ hu'rid ?_
                      (uniqueFinInv_append _ hRidLt ?_ hQ1)
                    · have := hQ1.2.2.2
                      rw [length_setAttrs] at this ⊢
                      omega
                    · rw [countOcc_cons, countOcc_nil, if_neg hne]
                | some yv =>
                    simp only [hx, hy]
                    refine uniqueFinInv_setChildrenMap _ _ _ hu'rid ?_
                      (uniqueFinInv_append _ hRidLt ?_ hQ1)
                    · have := hQ1.2.2.2
                      rw [length_setAttrs] at this ⊢
                      omega
                    · rw [countOcc_cons, countOcc_nil, if_neg hne]

lemma foldl_finalize_uniqueFinInv {init : Store} {rW : List (List Char × Nat)}
    {rid : Nat} {idv : List Char} {c : Nat} (counts : List (List Char × Nat))
    (hRW : ∀ h' n, alookup rW h' = some n →
      ∃ idv', alookup (getNode init n).attrs "id".toList = some idv' ∧
        h' = [Char.ofNat 35] ++ idv')
    (hRid : alookup (getNode init rid).attrs "id".toList = some idv)
    (hc : alookup counts ([Char.ofNat 35] ++ idv) = some c) (hcgt : c > 1)
    (hRidLt : rid < init.length)
    (hRnameUse : (getNode init rid).name ≠ "use".toList) :
    ∀ (usesL : List (Nat × Nat)),
      (∀ up ∈ usesL, (getNode init (Prod.fst up)).name = "use".toList) →
      ∀ ps : PState, uniqueFinInv init rW rid ps →
      uniqueFinInv init rW rid (usesL.foldl (finalizeUse true counts) ps) := by
  intro usesL
  induction usesL with
  | nil => intro _ ps h; exact h
  | cons up rest ih =>
      intro hnames ps h
      simp only [List.foldl_cons]
      have hstep := finalizeUse_uniqueFinInv counts hRW hRid hc hcgt hRidLt
        up.1 up.2 (hnames up (by simp)) hRnameUse ps h
      exact ih (fun x hx => hnames x (by simp [hx])) _ hstep

/-! ### C8 -/

/-- C8: in UniqueOnly mode, a fragment referenced by more than one `use`
(reference count `c > 1` for key `#idv`) is preserved: the recorded `use`
`uid` keeps its attributes and stays in its parent's child list, the
target `rid` (the element whose `id` is `idv`) keeps its attributes — in
particular its `id`, so it remains addressable — and the number of
occurrences of the target in every child list of the document is unchanged:
the target is neither duplicated nor relocated.  (The hypotheses identify
`uid` as a recorded `use` with no own `id`, and `rid` as a non-`defs`,
non-`use` element carrying `id="idv"` at a real store index.) -/
theorem C8_shared_target_preserved (doc : List XTree) (uid p rid : Nat)
    (idv : List Char) (c : Nat)
    (hmem : (uid, p) ∈ (runPlugin true doc).uses)
    (hhref : getHref (getNode (runPlugin true doc).init uid).attrs =
      some ([Char.ofNat 35] ++ idv))
    (hc : alookup (runPlugin true doc).counts ([Char.ofNat 35] ++ idv) = some c)
    (hcgt : c > 1)
    (hNoId : alookup (getNode (runPlugin true doc).init uid).attrs "id".toList =
      none)
    (hChild : uid ∈ (getNode (runPlugin true doc).init p).children)
    (hUid : uid < (runPlugin true doc).init.length)
    (hP : p < (runPlugin true doc).init.length)
    (hRid : alookup (getNode (runPlugin true doc).init rid).attrs "id".toList =
      some idv)
    (hRidLt : rid < (runPlugin true doc).init.length)
    (hRdefs : (getNode (runPlugin true doc).init rid).name ≠ "defs".toList)
    (hRuse : (getNode (runPlugin true doc).init rid).name ≠ "use".toList) :
    ((getNode (runPlugin true doc).final.store uid).attrs =
        (getNode (runPlugin true doc).init uid).attrs ∧
      uid ∈ (getNode (runPlugin true doc).final.store p).children) ∧
    ((getNode (runPlugin true doc).final.store rid).attrs =
        (getNode (runPlugin true doc).init rid).attrs ∧
      alookup (getNode (runPlugin true doc).final.store rid).attrs "id".toList =
        some idv) ∧
    (∀ q, countOcc rid (getNode (runPlugin true doc).final.store q).children =
      countOcc rid (getNode (runPlugin true doc).init q).children) := by
  have hAW : (runPlugin true doc).afterWalk =
      walkList true (runPlugin true doc).counts (runPlugin true doc).rootId
        (runPlugin true doc).rootChildren ⟨(runPlugin true doc).init, []⟩ := rfl
  have hFin : (runPlugin true doc).final =
      (runPlugin true doc).uses.foldl
        (finalizeUse true (runPlugin true doc).counts)
        (runPlugin true doc).afterWalk := rfl
  have hUse : (getNode (runPlugin true doc).init uid).name = "use".toList :=
    runPlugin_uses_name true doc uid p hmem
  have hNd : (getNode (runPlugin true doc).init uid).name ≠ "defs".toList := by
    rw [hUse]; decide
  -- (a): the shared use is never modified
  have hQ0 : useUntouched (runPlugin true doc).init uid p
      ⟨(runPlugin true doc).init, []⟩ := by
    refine ⟨rfl, rfl, hChild, ?_, le_refl _⟩
    intro h' n hl
    simp [alookup] at hl
  have hQw : useUntouched (runPlugin true doc).init uid p
      (runPlugin true doc).afterWalk := by
    rw [hAW]
    exact walkList_useUntouched true (runPlugin true doc).counts hNoId hNd
      (runPlugin true doc).rootChildren (runPlugin true doc).rootId _ hQ0
  have hSkip' : getHref (getNode (runPlugin true doc).init uid).attrs = none ∨
      ∃ h0, getHref (getNode (runPlugin true doc).init uid).attrs = some h0 ∧
        (alookup (runPlugin true doc).afterWalk.refs h0 = none ∨
          (true = true ∧ (alookup (runPlugin true doc).counts h0).getD 0 > 1)) := by
    refine Or.inr ⟨[Char.ofNat 35] ++ idv, hhref, Or.inr ⟨rfl, ?_⟩⟩
    rw [hc]
    exact hcgt
  have hQf : useUntouched (runPlugin true doc).init uid p
      (runPlugin true doc).final := by
    rw [hFin]
    exact foldl_finalize_useUntouched true (runPlugin true doc).counts hUid hP
      hNoId hSkip' (runPlugin true doc).uses (runPlugin true doc).afterWalk rfl
      hQw
  -- (b), (c): the shared target is preserved un-duplicated
  have hU0 : uniqueInv (runPlugin true doc).init rid
      ⟨(runPlugin true doc).init, []⟩ := by
    refine ⟨fun q => rfl, fun q => rfl, fun q => rfl, ?_, rfl⟩
    intro h' n hl
    simp [alookup] at hl
  have hUw : uniqueInv (runPlugin true doc).init rid
      (runPlugin true doc).afterWalk := by
    rw [hAW]
    exact walkList_uniqueInv (runPlugin true doc).counts hRid hc hcgt hRdefs
      (runPlugin true doc).rootChildren (runPlugin true doc).rootId _ hU0
  have hF0 : uniqueFinInv (runPlugin true doc).init
      (runPlugin true doc).afterWalk.refs rid (runPlugin true doc).afterWalk := by
    refine ⟨rfl, hUw.1 rid, hUw.2.2.1, ?_⟩
    rw [hUw.2.2.2.2]
  have husesName : ∀ up ∈ (runPlugin true doc).uses,
      (getNode (runPlugin true doc).init (Prod.fst up)).name = "use".toList := by
    intro up hup
    exact runPlugin_uses_name true doc up.1 up.2 (by rwa [Prod.mk.eta])
  have hFf : uniqueFinInv (runPlugin true doc).init
      (runPlugin true doc).afterWalk.refs rid (runPlugin true doc).final := by
    rw [hFin]
    exact foldl_finalize_uniqueFinInv (runPlugin true doc).counts
      hUw.2.2.2.1 hRid hc hcgt hRidLt hRuse (runPlugin true doc).uses husesName
      (runPlugin true doc).afterWalk hF0
  refine ⟨⟨hQf.1, hQf.2.2.1⟩, ⟨hFf.2.1, ?_⟩, hFf.2.2.1⟩
  rw [hFf.2.1]
  exact hRid

/-- The concrete document for the `C8` witness: a `defs`-held circle with
`id="a"`, referenced by two distinct `use` elements. -/
def c8doc : List XTree :=
  [.elem "svg".toList []
    [.elem "defs".toList []
      [.elem "circle".toList [("id".toList, "a".toList), ("r".toList, "4".toList)] []],
     .elem "use".toList [("href".toList, "#a".toList)] [],
     .elem "use".toList [("xlink:href".toList, "#a".toList)] []]]

/-- Witness for `C8_shared_target_preserved`: nodes — 0 root, 1 svg,
2 defs, 3 circle target, 4 and 5 the two `use` references. -/
theorem C8_shared_target_preserved_witness :
    ((getNode (runPlugin true c8doc).final.store 4).attrs =
        (getNode (runPlugin true c8doc).init 4).attrs ∧
      4 ∈ (getNode (runPlugin true c8doc).final.store 1).children) ∧
    ((getNode (runPlugin true c8doc).final.store 3).attrs =
        (getNode (runPlugin true c8doc).init 3).attrs ∧
      alookup (getNode (runPlugin true c8doc).final.store 3).attrs "id".toList =
        some "a".toList) ∧
    (∀ q, countOcc 3 (getNode (runPlugin true c8doc).final.store q).children =
      countOcc 3 (getNode (runPlugin true c8doc).init q).children) := by
  exact C8_shared_target_preserved c8doc 4 1 3 "a".toList 2 (by decide)
    (by decide) (by decide) (by decide) (by decide) (by decide) (by decide)
    (by decide) (by decide) (by decide) (by decide) (by decide)

/-! ### C5: matcher lemmas

Facts about `stripL`, `matchOptQuote`, `matchQueryTail` and `matchPat`
needed to characterise where the two reference regexes can and cannot
match. -/

lemma stripL_eq_some {p s r : List Char} (h : stripL p s = some r) :
    s = p ++ r := by
  induction p generalizing s with
  | nil => cases h; rfl
  | cons a ps ih =>
      cases s with
      | nil => cases h
      | cons c cs =>
          simp only [stripL] at h
          by_cases hac : (a == c) = true
          · rw [if_pos hac] at h
            rw [List.cons_append, ← ih h, eq_of_beq hac]
          · rw [if_neg hac] at h
            cases h

lemma stripL_append_left (a b s : List Char) :
    stripL (a ++ b) (a ++ s) = stripL b s := by
  induction a with
  | nil => rfl
  | cons c cs ih => simp [stripL, ih]

lemma stripL_append_cases {a b z r : List Char}
    (h : stripL a (b ++ z) = some r) :
    (∃ t, a = b ++ t ∧ stripL t z = some r) ∨ (∃ t, b = a ++ t ∧ r = t ++ z) := by
  induction a generalizing b with
  | nil =>
      cases h
      exact Or.inr ⟨b, rfl, rfl⟩
  | cons c cs ih =>
      cases b with
      | nil =>
          exact Or.inl ⟨c :: cs, rfl, h⟩
      | cons d ds =>
          simp only [List.cons_append, stripL] at h
          by_cases hcd : (c == d) = true
          · rw [if_pos hcd] at h
            rcases ih h with ⟨t, ht1, ht2⟩ | ⟨t, ht1, ht2⟩
            · exact Or.inl ⟨t, by rw [List.cons_append, ← ht1, eq_of_beq hcd], ht2⟩
            · exact Or.inr ⟨t, by rw [List.cons_append, ← ht1, eq_of_beq hcd], ht2⟩
          · rw [if_neg hcd] at h
            cases h

lemma matchOptQuote_nonquote (k : List Char → Option (List Char))
    (s : List Char) (h : ∀ c z, s = c :: z → isQuoteC c = false) :
    matchOptQuote k s = k s := by
  cases s with
  | nil => rfl
  | cons c z =>
      simp only [matchOptQuote]
      rw [h c z rfl]
      simp

lemma matchOptQuote_quote (k : List Char → Option (List Char)) (c : Char)
    (hq : isQuoteC c = true) (s : List Char) :
    matchOptQuote k (c :: s) =
      (match k s with
       | some r => some r
       | none => k (c :: s)) := by
  simp only [matchOptQuote, hq, if_true]

/-- Every match of either reference pattern begins with literal `url(`. -/
lemma matchPat_some_url {withQuery : Bool} {old s r : List Char}
    (h : matchPat withQuery old s = some r) :
    ∃ z, s = "url(".toList ++ z := by
  unfold matchPat at h
  cases hu : stripL "url(".toList s with
  | none => rw [hu] at h; cases h
  | some z => exact ⟨z, stripL_eq_some hu⟩

/-- A list whose visible window cannot begin with `url(` admits no match. -/
lemma matchPat_none_of_no_url {withQuery : Bool} {old s : List Char}
    (h : ∀ z, s ≠ "url(".toList ++ z) : matchPat withQuery old s = none := by
  cases hm : matchPat withQuery old s with
  | none => rfl
  | some r =>
      rcases matchPat_some_url hm with ⟨z, hz⟩
      exact absurd hz (h z)

/-! ### C5: stepping lemmas for the global replacement -/

lemma replaceG_cons_none {m : List Char → Option (List Char)} {repl : List Char}
    {c : Char} {rest : List Char} (h : m (c :: rest) = none) :
    replaceG m repl (c :: rest) = c :: replaceG m repl rest := by
  rw [replaceG, h]

lemma replaceG_cons_some {m : List Char → Option (List Char)} {repl : List Char}
    {c : Char} {rest r : List Char} (h : m (c :: rest) = some r)
    (hlt : r.length < rest.length + 1) :
    replaceG m repl (c :: rest) = repl ++ replaceG m repl r := by
  rw [replaceG, h]
  simp only [hlt, dite_true]

/-- A region none of whose suffixes (with the remainder appended) matches is
copied verbatim by the global replacement. -/
lemma replaceG_skip {m : List Char → Option (List Char)} {repl : List Char} :
    ∀ (a b : List Char), (∀ i, i < a.length → m (a.drop i ++ b) = none) →
    replaceG m repl (a ++ b) = a ++ replaceG m repl b := by
  intro a
  induction a with
  | nil => intro b _; simp
  | cons c cs ih =>
      intro b h
      have h0 : m (c :: (cs ++ b)) = none := by
        have := h 0 (Nat.succ_pos _)
        simpa using this
      rw [List.cons_append, replaceG_cons_none h0,
        ih b (fun i hi => by
          have := h (i + 1) (Nat.succ_lt_succ hi)
          simpa using this)]
      simp

/-- A match consuming a nonempty prefix is replaced and scanning resumes
after it. -/
lemma replaceG_hit {m : List Char → Option (List Char)} {repl : List Char}
    (a b : List Char) (ha : a ≠ []) (h : m (a ++ b) = some b) :
    replaceG m repl (a ++ b) = repl ++ replaceG m repl b := by
  cases a with
  | nil => exact absurd rfl ha
  | cons c cs =>
      rw [List.cons_append]
      have h' : m (c :: (cs ++ b)) = some b := by simpa using h
      have hlt : b.length < (cs ++ b).length + 1 := by
        simp only [List.length_append]
        omega
      exact replaceG_cons_some h' hlt

lemma replaceG_nil {m : List Char → Option (List Char)} {repl : List Char} :
    replaceG m repl [] = [] := by
  rw [replaceG]

/-! ### C5: the backtracking star -/

/-- The greedy star succeeds immediately at its first (longest) attempt. -/
lemma tryStar_top {s : List Char} {n : Nat} {r : List Char}
    (h : matchOptQuote matchCloseParen (s.drop n) = some r) :
    tryStar s n = some r := by
  cases n with
  | zero => simpa [tryStar] using h
  | succ k => simp [tryStar, h]

/-- Descending through failing attempts, the star lands on the first
succeeding one. -/
lemma tryStar_down {s : List Char} {k0 : Nat} {r : List Char}
    (hsucc : matchOptQuote matchCloseParen (s.drop k0) = some r) :
    ∀ k, k0 ≤ k →
      (∀ j, k0 < j → j ≤ k → matchOptQuote matchCloseParen (s.drop j) = none) →
      tryStar s k = some r := by
  intro k
  induction k with
  | zero =>
      intro hk _
      have h0 : k0 = 0 := Nat.le_zero.mp hk
      subst h0
      simpa [tryStar] using hsucc
  | succ k ih =>
      intro hk hfail
      by_cases he : k0 = k + 1
      · subst he
        simp [tryStar, hsucc]
      · have hk' : k0 ≤ k := Nat.lt_succ_iff.mp (Nat.lt_of_le_of_ne hk he)
        have hf : matchOptQuote matchCloseParen (s.drop (k + 1)) = none :=
          hfail (k + 1) (Nat.lt_succ_of_le hk') (Nat.le_refl _)
        simp only [tryStar, hf]
        exact ih hk' (fun j hj1 hj2 => hfail j hj1 (Nat.le_succ_of_le hj2))

/-! ### C5: a named view of the pattern's continuation -/

/-- What follows the old filename in the two patterns: `?[^'"]*['"]?\)` for
the query pattern, `['"]?\)` for the bare one. -/
def patTail (withQuery : Bool) (s3 : List Char) : Option (List Char) :=
  if withQuery then
    match s3 with
    | c :: s4 => if c == Char.ofNat 63 then matchQueryTail s4 else none
    | [] => none
  else matchOptQuote matchCloseParen s3

/-- The inner continuation of `matchPat`: old filename, then the tail. -/
def refK (withQuery : Bool) (old s2 : List Char) : Option (List Char) :=
  match stripL old s2 with
  | none => none
  | some s3 => patTail withQuery s3

lemma matchPat_view (withQuery : Bool) (old s : List Char) :
    matchPat withQuery old s =
      match stripL "url(".toList s with
      | none => none
      | some s1 => matchOptQuote (refK withQuery old) s1 := rfl

/-! ### C5: character classes -/

lemma not_quote_of_alnum {c : Char} (h : isAlnum c = true) : isQuoteC c = false := by
  by_contra hq
  rw [Bool.not_eq_false] at hq
  simp only [isQuoteC, Bool.or_eq_true, beq_iff_eq] at hq
  rcases hq with h' | h' <;> (subst h'; exact absurd h (by decide))

lemma alnum_false_of_quote {c : Char} (h : isQuoteC c = true) : isAlnum c = false := by
  simp only [isQuoteC, Bool.or_eq_true, beq_iff_eq] at h
  rcases h with h | h <;> (subst h; decide)

lemma beq_false_of_alnum {c d : Char} (hc : isAlnum c = true)
    (hd : isAlnum d = false) : (c == d) = false := by
  rw [beq_eq_false_iff_ne]
  intro h
  subst h
  rw [hc] at hd
  cases hd

lemma quote_beq_false {c d : Char} (hc : isQuoteC c = true)
    (hd : isQuoteC d = false) : (c == d) = false := by
  rw [beq_eq_false_iff_ne]
  intro h
  subst h
  rw [hc] at hd
  cases hd

/-- All five known extensions are nonempty alphanumeric strings. -/
lemma fontExts_alnum : ∀ e ∈ fontExts, e ≠ [] ∧ ∀ c ∈ e, isAlnum c = true := by
  decide

/-! ### C5: where the continuation fails -/

/-- Neither tail can start with a character that is not a quote, not `?`,
and not `)`. -/
lemma patTail_fail {wq : Bool} {c : Char} {z : List Char}
    (hq : isQuoteC c = false) (hqm : (c == Char.ofNat 63) = false)
    (hcp : (c == Char.ofNat 41) = false) :
    patTail wq (c :: z) = none := by
  cases wq with
  | true => simp [patTail, hqm]
  | false => simp [patTail, matchOptQuote, hq, matchCloseParen, hcp]

lemma patTail_fail_alnum {wq : Bool} {c : Char} {z : List Char}
    (h : isAlnum c = true) : patTail wq (c :: z) = none :=
  patTail_fail (not_quote_of_alnum h) (beq_false_of_alnum h (by decide))
    (beq_false_of_alnum h (by decide))

lemma patTail_fail_dot {wq : Bool} {z : List Char} :
    patTail wq (Char.ofNat 46 :: z) = none :=
  patTail_fail (by decide) (by decide) (by decide)

/-- Stripping a shared prefix off both the pattern and the subject. -/
lemma refK_shift (wq : Bool) (p ext X : List Char) :
    refK wq (p ++ ext) (p ++ X) = refK wq ext X := by
  simp only [refK, stripL_append_left]

/-- After the base name and dot, an alphanumeric run followed by another
dot (the hash segment of an already rewritten reference) always kills the
pattern: either the extension mismatches inside the run, or the first
unconsumed character is alphanumeric or the dot, none of which the tails
accept. -/
lemma refK_alnum_dot_none {wq : Bool} {ext hid : List Char} (z : List Char)
    (hext : ∀ c ∈ ext, isAlnum c = true) (hhid : ∀ c ∈ hid, isAlnum c = true) :
    refK wq ext (hid ++ [Char.ofNat 46] ++ z) = none := by
  unfold refK
  cases hs : stripL ext (hid ++ [Char.ofNat 46] ++ z) with
  | none => rfl
  | some s3 =>
      rw [List.append_assoc] at hs
      rcases stripL_append_cases hs with ⟨t, ht, hst⟩ | ⟨t, ht, hr⟩
      · cases t with
        | nil =>
            have hs3 : Char.ofNat 46 :: z = s3 := by
              simpa [stripL] using hst
            rw [← hs3]
            exact patTail_fail_dot
        | cons t0 t' =>
            have ht0 : isAlnum t0 = true :=
              hext t0 (by rw [ht]; exact List.mem_append_right _ (List.mem_cons_self _ _))
            rw [List.singleton_append, stripL.eq_3,
              beq_false_of_alnum ht0 (show isAlnum (Char.ofNat 46) = false by decide)] at hst
            simp at hst
      · cases t with
        | nil =>
            rw [List.nil_append] at hr
            rw [hr]
            exact patTail_fail_dot
        | cons t0 t' =>
            have ht0 : isAlnum t0 = true :=
              hhid t0 (by rw [ht]; exact List.mem_append_right _ (List.mem_cons_self _ _))
            rw [hr, List.cons_append]
            exact patTail_fail_alnum ht0

/-- The pattern's base name, which starts alphanumeric, never matches at a
quote character. -/
lemma refK_quote_head (wq : Bool) (fontName ext : List Char) (qc : Char)
    (S : List Char) (hf : fontName ≠ [])
    (hfa : ∀ c ∈ fontName, isAlnum c = true) (hq : isQuoteC qc = true) :
    refK wq (fontName ++ [Char.ofNat 46] ++ ext) (qc :: S) = none := by
  cases fontName with
  | nil => exact absurd rfl hf
  | cons f0 fs =>
      have h0 : isAlnum f0 = true := hfa f0 (List.mem_cons_self _ _)
      have hne : (f0 == qc) = false :=
        beq_false_of_alnum h0 (alnum_false_of_quote hq)
      simp only [refK, List.cons_append, stripL.eq_3, hne]
      simp

/-! ### C5: no match can begin strictly inside a reference -/

lemma no_url_take {x R z : List Char} (heq : x ++ R = "url(".toList ++ z)
    (h4 : 4 ≤ x.length) : x.take 4 = "url(".toList := by
  have h := congrArg (List.take 4) heq
  rw [List.take_append_eq_append_take, List.take_append_eq_append_take,
    Nat.sub_eq_zero_of_le h4] at h
  have hl : ("url(".toList).length = 4 := rfl
  rw [hl, Nat.sub_self] at h
  simp only [List.take_zero, List.append_nil] at h
  rw [h]
  rfl

lemma no_url_small {x R z : List Char} (heq : x ++ R = "url(".toList ++ z)
    (h4 : x.length ≤ 4) : x = "url(".toList.take x.length := by
  have h := congrArg (List.take x.length) heq
  rw [List.take_append_eq_append_take, Nat.sub_self] at h
  simp only [List.take_zero, List.append_nil, List.take_length] at h
  rw [h, List.take_append_eq_append_take]
  have hl : ("url(".toList).length = 4 := rfl
  rw [hl, Nat.sub_eq_zero_of_le h4]
  simp

lemma no_url_small_rest {x R z : List Char} (heq : x ++ R = "url(".toList ++ z)
    (h4 : x.length ≤ 4) : R = "url(".toList.drop x.length ++ z := by
  have h := congrArg (List.drop x.length) heq
  rw [List.drop_append_eq_append_drop, Nat.sub_self] at h
  simp only [List.drop_zero, List.drop_length, List.nil_append] at h
  rw [h, List.drop_append_eq_append_drop]
  have hl : ("url(".toList).length = 4 := rfl
  rw [hl, Nat.sub_eq_zero_of_le h4]
  simp

/-- A rendered reference is `url(` followed by a tail that contains no `(`
and ends in `)`; no suffix of it (with anything appended) can begin with
`url(`, so a scan resumed one character in never finds a second match. -/
lemma seg_probe_none {wq : Bool} (old : List Char) {tail : List Char}
    (hpar : ∀ c ∈ tail, (c == Char.ofNat 40) = false)
    {y : List Char} (hy : tail = y ++ [Char.ofNat 41]) :
    ∀ i R, 1 ≤ i → i < ("url(".toList ++ tail).length →
      matchPat wq old (("url(".toList ++ tail).drop i ++ R) = none := by
  intro i R h1 hlen
  apply matchPat_none_of_no_url
  intro z heq
  have h4l : ("url(".toList).length = 4 := rfl
  rcases Nat.lt_or_ge i 4 with hi4 | hi4
  · have hz : i - ("url(".toList).length = 0 := by rw [h4l]; omega
    have hdrop : ("url(".toList ++ tail).drop i = "url(".toList.drop i ++ tail := by
      rw [List.drop_append_eq_append_drop, hz, List.drop_zero]
    rw [hdrop] at heq
    interval_cases i
    · rw [show ("url(".toList).drop 1 = ['r', 'l', '('] from rfl,
        show "url(".toList = ['u', 'r', 'l', '('] from rfl] at heq
      simp at heq
    · rw [show ("url(".toList).drop 2 = ['l', '('] from rfl,
        show "url(".toList = ['u', 'r', 'l', '('] from rfl] at heq
      simp at heq
    · rw [show ("url(".toList).drop 3 = ['('] from rfl,
        show "url(".toList = ['u', 'r', 'l', '('] from rfl] at heq
      simp at heq
  · have hdrop : ("url(".toList ++ tail).drop i = tail.drop (i - 4) := by
      rw [List.drop_append_eq_append_drop,
        List.drop_eq_nil_of_le (by rw [h4l]; omega), h4l, List.nil_append]
    rw [hdrop] at heq
    have hj : i - 4 < tail.length := by
      rw [List.length_append, h4l] at hlen
      omega
    rcases le_or_lt 4 (tail.drop (i - 4)).length with hx4 | hx4
    · have htake := no_url_take heq hx4
      have hmem : Char.ofNat 40 ∈ tail.drop (i - 4) := by
        have h40 : Char.ofNat 40 ∈ (tail.drop (i - 4)).take 4 := by
          rw [htake]
          decide
        exact List.take_subset _ _ h40
      have := hpar _ (List.drop_subset _ _ hmem)
      simp at this
    · have hxe := no_url_small heq (Nat.le_of_lt hx4)
      have hcp : Char.ofNat 41 ∈ tail.drop (i - 4) := by
        rw [hy, List.drop_append_eq_append_drop]
        have hyl : i - 4 ≤ y.length := by
          rw [hy, List.length_append, List.length_singleton] at hj
          omega
        rw [Nat.sub_eq_zero_of_le hyl, List.drop_zero]
        exact List.mem_append_right _ (List.mem_cons_self _ _)
      rw [hxe] at hcp
      have := List.take_subset _ _ hcp
      exact absurd this (by decide)

/-! ### C5: segment model of a style sheet

A style sheet is viewed as a list of segments: free text, pending font
references `url(['"]?NAME.EXT[?query]['"]?)` in any of the quoting/query
forms the code's two regexes target, and already rewritten references
`url("NAME.HASH.EXT")`.  The conditions in `segsOkB` delimit the documents
on which the rewrite is exhaustive: text contains no stray `url(`, quotes
are real quote characters, query strings contain no quote and no `(`, and
an unquoted query reference is last (possibly before quote- and
parenthesis-free trailing text), keeping the greedy `[^'"]*` from
overrunning its closing parenthesis. -/

inductive CSeg where
  | text (t : List Char)
  | ref (ext : List Char) (q1 q2 : Option Char) (qy : Option (List Char))
  | done (ext : List Char)
deriving DecidableEq

def oqR : Option Char → List Char
  | none => []
  | some c => [c]

def qyR : Option (List Char) → List Char
  | none => []
  | some qs => Char.ofNat 63 :: qs

def renderCSeg (fontName contentHash : List Char) : CSeg → List Char
  | CSeg.text t => t
  | CSeg.ref e q1 q2 qy =>
      "url(".toList ++
        (oqR q1 ++ (fontName ++ [Char.ofNat 46] ++ e) ++ qyR qy ++ oqR q2 ++
          [Char.ofNat 41])
  | CSeg.done e => cssRepl contentHash fontName e

def renderCss (fontName contentHash : List Char) (segs : List CSeg) :
    List Char :=
  (segs.map (renderCSeg fontName contentHash)).flatten

/-- One pattern pass rewrites exactly the pending references of its
extension and form. -/
def passSeg (withQuery : Bool) (ext : List Char) : CSeg → CSeg
  | CSeg.ref e q1 q2 qy =>
      if e = ext ∧ qy.isSome = withQuery then CSeg.done e
      else CSeg.ref e q1 q2 qy
  | s => s

/-- The net effect of all ten passes: every pending reference rewritten. -/
def finishSeg : CSeg → CSeg
  | CSeg.ref e _ _ _ => CSeg.done e
  | s => s

def textOkB (t : List Char) : Bool :=
  (List.range t.length).all (fun j => !((t.drop j).take 4 == "url(".toList))

def qOkB : Option Char → Bool
  | none => true
  | some c => isQuoteC c

def qyOkB : Option (List Char) → Bool
  | none => true
  | some qs => qs.all (fun c => !isQuoteC c && !(c == Char.ofNat 40))

def nextOkB : List CSeg → Bool
  | CSeg.text _ :: _ => false
  | _ => true

def qnqOkB : List CSeg → Bool
  | [] => true
  | [CSeg.text t] => t.all (fun c => !isQuoteC c && !(c == Char.ofNat 41))
  | _ => false

def segsOkB : List CSeg → Bool
  | [] => true
  | CSeg.text t :: rest => textOkB t && nextOkB rest && segsOkB rest
  | CSeg.ref e q1 q2 qy :: rest =>
      decide (e ∈ fontExts) && qOkB q1 && qOkB q2 && qyOkB qy &&
        (!(qy.isSome && q2.isNone) || qnqOkB rest) && segsOkB rest
  | CSeg.done e :: rest => decide (e ∈ fontExts) && segsOkB rest

lemma textOkB_spec {t : List Char} (h : textOkB t = true) {j : Nat}
    (hj : j < t.length) : (t.drop j).take 4 ≠ "url(".toList := by
  simp only [textOkB, List.all_eq_true] at h
  have := h j (List.mem_range.mpr hj)
  simpa using this

lemma renderCss_nil (fontName contentHash : List Char) :
    renderCss fontName contentHash [] = [] := rfl

lemma renderCss_cons (fontName contentHash : List Char) (s : CSeg)
    (rest : List CSeg) :
    renderCss fontName contentHash (s :: rest) =
      renderCSeg fontName contentHash s ++ renderCss fontName contentHash rest := by
  simp [renderCss]

/-- What may follow a text segment renders as nothing or starts with the
`u` of `url(`. -/
lemma renderCss_headU (fontName contentHash : List Char) (rest : List CSeg)
    (hn : nextOkB rest = true) :
    renderCss fontName contentHash rest = [] ∨
      ∃ R', renderCss fontName contentHash rest = 'u' :: R' := by
  cases rest with
  | nil => exact Or.inl rfl
  | cons s rest' =>
      cases s with
      | text t => simp [nextOkB] at hn
      | ref e q1 q2 qy =>
          refine Or.inr ⟨?_, ?_⟩
          · exact ['r', 'l', '('] ++
              (oqR q1 ++ (fontName ++ [Char.ofNat 46] ++ e) ++ qyR qy ++ oqR q2 ++
                [Char.ofNat 41]) ++ renderCss fontName contentHash rest'
          · rw [renderCss_cons]
            simp only [renderCSeg]
            rw [show "url(".toList = 'u' :: ['r', 'l', '('] from rfl]
            simp
      | done e =>
          refine Or.inr ⟨?_, ?_⟩
          · exact ['r', 'l', '('] ++
              ([Char.ofNat 34] ++ getHashedFilename contentHash fontName e ++
                [Char.ofNat 34] ++ [Char.ofNat 41]) ++
              renderCss fontName contentHash rest'
          · rw [renderCss_cons]
            simp only [renderCSeg, cssRepl]
            rw [show "url(".toList = 'u' :: ['r', 'l', '('] from rfl]
            simp

/-- No match begins inside a text segment: `url(` does not occur in it, and
a straddling window would need the next segment to supply non-`u`
characters. -/
lemma text_probe_none {wq : Bool} (old : List Char) {t R : List Char}
    (ht : textOkB t = true) (hR : R = [] ∨ ∃ R', R = 'u' :: R') :
    ∀ i, i < t.length → matchPat wq old (t.drop i ++ R) = none := by
  intro i hi
  apply matchPat_none_of_no_url
  intro z heq
  rcases le_or_lt 4 (t.drop i).length with h4 | h4
  · exact absurd (no_url_take heq h4) (textOkB_spec ht hi)
  · have hxe := no_url_small heq (Nat.le_of_lt h4)
    have hRe := no_url_small_rest heq (Nat.le_of_lt h4)
    have hxlen : 1 ≤ (t.drop i).length := by
      rw [List.length_drop]
      omega
    have hk : (t.drop i).length = 1 ∨ (t.drop i).length = 2 ∨
        (t.drop i).length = 3 := by omega
    rcases hk with hk | hk | hk <;> rw [hk] at hRe <;>
      [rw [show ("url(".toList).drop 1 = ['r', 'l', '('] from rfl] at hRe;
       rw [show ("url(".toList).drop 2 = ['l', '('] from rfl] at hRe;
       rw [show ("url(".toList).drop 3 = ['('] from rfl] at hRe] <;>
      (rcases hR with hR | ⟨R', hR⟩ <;> rw [hR] at hRe <;> simp at hRe)

/-! ### C5: what happens at the head of a rendered reference -/

lemma refK_self (wq : Bool) (old Y : List Char) :
    refK wq old (old ++ Y) = patTail wq Y := by
  simp only [refK, stripL_self_append]

/-- Dispatching the optional opening quote: with a quote present the match
consumes it (backtracking cannot help, since the base name starts
alphanumeric), without one the matcher goes straight to the filename. -/
lemma matchOptQuote_ref (wq : Bool) (fontName ext e Y : List Char)
    (q1 : Option Char) (hf : fontName ≠ [])
    (hfa : ∀ c ∈ fontName, isAlnum c = true) (hq1 : qOkB q1 = true) :
    matchOptQuote (refK wq (fontName ++ [Char.ofNat 46] ++ ext))
      (oqR q1 ++ ((fontName ++ [Char.ofNat 46] ++ e) ++ Y)) =
    refK wq ext (e ++ Y) := by
  have hsh : refK wq (fontName ++ [Char.ofNat 46] ++ ext)
      ((fontName ++ [Char.ofNat 46] ++ e) ++ Y) = refK wq ext (e ++ Y) := by
    have h2 : (fontName ++ [Char.ofNat 46] ++ e) ++ Y =
        (fontName ++ [Char.ofNat 46]) ++ (e ++ Y) := by
      simp [List.append_assoc]
    rw [h2, refK_shift]
  cases q1 with
  | none =>
      rw [show oqR none = ([] : List Char) from rfl, List.nil_append, ← hsh]
      cases fontName with
      | nil => exact absurd rfl hf
      | cons f0 fs =>
          apply matchOptQuote_nonquote
          intro c z heq
          have hc : f0 = c := by
            have hns : ((f0 :: fs) ++ [Char.ofNat 46] ++ e) ++ Y =
                f0 :: ((fs ++ [Char.ofNat 46] ++ e) ++ Y) := by simp
            rw [hns] at heq
            exact (List.cons.inj heq).1
          rw [← hc]
          exact not_quote_of_alnum (hfa f0 (List.mem_cons_self _ _))
  | some qc =>
      have hq : isQuoteC qc = true := by simpa [qOkB] using hq1
      rw [show oqR (some qc) = [qc] from rfl, List.singleton_append,
        matchOptQuote_quote _ _ hq, hsh]
      cases hres : refK wq ext (e ++ Y) with
      | some r => simp
      | none =>
          simp only []
          rw [refK_quote_head wq fontName ext qc _ hf hfa hq]

/-- The bare pattern's close: optional quote, then `)`. -/
lemma patTail_bare_close (q2 : Option Char) (hq2 : qOkB q2 = true)
    (R : List Char) :
    patTail false (oqR q2 ++ Char.ofNat 41 :: R) = some R := by
  cases q2 with
  | none =>
      rw [show oqR none = ([] : List Char) from rfl, List.nil_append]
      simp [patTail, matchOptQuote, matchCloseParen,
        show isQuoteC (Char.ofNat 41) = false from by decide]
  | some qc =>
      have hq : isQuoteC qc = true := by simpa [qOkB] using hq2
      rw [show oqR (some qc) = [qc] from rfl, List.singleton_append]
      simp [patTail, matchOptQuote_quote _ _ hq, matchOptQuote, matchCloseParen,
        show isQuoteC (Char.ofNat 41) = false from by decide, hq]

/-- The query tail with a closing quote: `[^'"]*` stops at the quote, the
optional quote consumes it, `\)` closes. -/
lemma matchQueryTail_quote (qs : List Char)
    (hqs : ∀ c ∈ qs, isQuoteC c = false) (qc2 : Char)
    (hq : isQuoteC qc2 = true) (R : List Char) :
    matchQueryTail (qs ++ qc2 :: Char.ofNat 41 :: R) = some R := by
  unfold matchQueryTail
  have htw : (qs ++ qc2 :: Char.ofNat 41 :: R).takeWhile (fun c => !isQuoteC c) =
      qs := by
    rw [takeWhile_append_all (by intro x hx; simp [hqs x hx])]
    simp [List.takeWhile_cons, hq]
  rw [htw]
  apply tryStar_top
  rw [List.drop_left]
  simp [matchOptQuote, hq, matchCloseParen]

/-- The query tail with no closing quote, followed only by quote-free and
parenthesis-free text: the greedy run swallows everything, then backtracks
to the real `)`. -/
lemma matchQueryTail_noquote (qs T : List Char)
    (hqs : ∀ c ∈ qs, isQuoteC c = false)
    (hT : ∀ c ∈ T, isQuoteC c = false ∧ (c == Char.ofNat 41) = false) :
    matchQueryTail (qs ++ Char.ofNat 41 :: T) = some T := by
  unfold matchQueryTail
  have hall : ∀ x ∈ qs ++ Char.ofNat 41 :: T, (fun c => !isQuoteC c) x = true := by
    intro x hx
    rcases List.mem_append.mp hx with hx | hx
    · simp [hqs x hx]
    · rcases List.mem_cons.mp hx with hx | hx
      · subst hx; decide
      · simp [(hT x hx).1]
  have htw : (qs ++ Char.ofNat 41 :: T).takeWhile (fun c => !isQuoteC c) =
      qs ++ Char.ofNat 41 :: T := by
    have := @takeWhile_append_all (fun c => !isQuoteC c) (qs ++ Char.ofNat 41 :: T) [] hall
    simpa using this
  rw [htw]
  have hsucc : matchOptQuote matchCloseParen
      ((qs ++ Char.ofNat 41 :: T).drop qs.length) = some T := by
    rw [List.drop_left]
    simp [matchOptQuote, matchCloseParen,
      show isQuoteC (Char.ofNat 41) = false from by decide]
  apply tryStar_down hsucc
  · simp only [List.length_append, List.length_cons]
    omega
  · intro j hj1 hj2
    have hdrop : (qs ++ Char.ofNat 41 :: T).drop j = T.drop (j - qs.length - 1) := by
      rw [List.drop_append_eq_append_drop,
        List.drop_eq_nil_of_le (Nat.le_of_lt hj1), List.nil_append]
      have : j - qs.length = (j - qs.length - 1) + 1 := by omega
      rw [this, List.drop_succ_cons]
      congr 1
    rw [hdrop]
    cases hd : T.drop (j - qs.length - 1) with
    | nil => simp [matchOptQuote, matchCloseParen]
    | cons c z =>
        have hc : c ∈ T := List.drop_subset _ _ (hd ▸ List.mem_cons_self c z)
        rcases hT c hc with ⟨hcq, hccp⟩
        rw [matchOptQuote_nonquote _ _ (by
          intro c' z' heq
          have : c = c' := (List.cons.inj heq).1
          rw [← this]
          exact hcq)]
        simp [matchCloseParen, hccp]

/-- Right-associated view of a rendered pending reference with its
continuation. -/
lemma renderRef_split (fontName contentHash e : List Char) (q1 q2 : Option Char)
    (qy : Option (List Char)) (R : List Char) :
    renderCSeg fontName contentHash (CSeg.ref e q1 q2 qy) ++ R =
      "url(".toList ++
        (oqR q1 ++ ((fontName ++ [Char.ofNat 46] ++ e) ++
          (qyR qy ++ (oqR q2 ++ Char.ofNat 41 :: R)))) := by
  simp only [renderCSeg, List.append_assoc, List.singleton_append,
    List.cons_append, List.nil_append]

lemma matchPat_url (wq : Bool) (old S : List Char) :
    matchPat wq old ("url(".toList ++ S) = matchOptQuote (refK wq old) S := by
  rw [matchPat_view, stripL_self_append]

/-- The bare pattern consumes a bare rendered reference exactly. -/
lemma matchPat_ref_hit_bare (fontName contentHash ext : List Char)
    (q1 q2 : Option Char) (R : List Char) (hf : fontName ≠ [])
    (hfa : ∀ c ∈ fontName, isAlnum c = true)
    (hq1 : qOkB q1 = true) (hq2 : qOkB q2 = true) :
    matchPat false (fontName ++ [Char.ofNat 46] ++ ext)
      (renderCSeg fontName contentHash (CSeg.ref ext q1 q2 none) ++ R) =
      some R := by
  rw [renderRef_split, matchPat_url,
    matchOptQuote_ref false fontName ext ext _ q1 hf hfa hq1]
  rw [show qyR none = ([] : List Char) from rfl, List.nil_append, refK_self]
  exact patTail_bare_close q2 hq2 R

/-- The query pattern consumes a quoted query reference exactly. -/
lemma matchPat_ref_hit_query_quote (fontName contentHash ext : List Char)
    (q1 : Option Char) (qc2 : Char) (qs R : List Char) (hf : fontName ≠ [])
    (hfa : ∀ c ∈ fontName, isAlnum c = true) (hq1 : qOkB q1 = true)
    (hq : isQuoteC qc2 = true) (hqs : ∀ c ∈ qs, isQuoteC c = false) :
    matchPat true (fontName ++ [Char.ofNat 46] ++ ext)
      (renderCSeg fontName contentHash
        (CSeg.ref ext q1 (some qc2) (some qs)) ++ R) = some R := by
  rw [renderRef_split, matchPat_url,
    matchOptQuote_ref true fontName ext ext _ q1 hf hfa hq1, refK_self]
  rw [show qyR (some qs) = Char.ofNat 63 :: qs from rfl,
    show oqR (some qc2) = [qc2] from rfl, List.cons_append,
    List.singleton_append]
  have hred : patTail true
      (Char.ofNat 63 :: (qs ++ qc2 :: Char.ofNat 41 :: R)) =
      matchQueryTail (qs ++ qc2 :: Char.ofNat 41 :: R) := by
    simp [patTail]
  rw [hred]
  exact matchQueryTail_quote qs hqs qc2 hq R

/-- The query pattern consumes an unquoted query reference exactly when
only quote- and parenthesis-free text follows. -/
lemma matchPat_ref_hit_query_noquote (fontName contentHash ext : List Char)
    (q1 : Option Char) (qs T : List Char) (hf : fontName ≠ [])
    (hfa : ∀ c ∈ fontName, isAlnum c = true) (hq1 : qOkB q1 = true)
    (hqs : ∀ c ∈ qs, isQuoteC c = false)
    (hT : ∀ c ∈ T, isQuoteC c = false ∧ (c == Char.ofNat 41) = false) :
    matchPat true (fontName ++ [Char.ofNat 46] ++ ext)
      (renderCSeg fontName contentHash
        (CSeg.ref ext q1 none (some qs)) ++ T) = some T := by
  rw [renderRef_split, matchPat_url,
    matchOptQuote_ref true fontName ext ext _ q1 hf hfa hq1, refK_self]
  rw [show qyR (some qs) = Char.ofNat 63 :: qs from rfl,
    show oqR none = ([] : List Char) from rfl, List.nil_append,
    List.cons_append]
  have hred : patTail true (Char.ofNat 63 :: (qs ++ Char.ofNat 41 :: T)) =
      matchQueryTail (qs ++ Char.ofNat 41 :: T) := by
    simp [patTail]
  rw [hred]
  exact matchQueryTail_noquote qs T hqs hT

/-- The wrong form at the right extension never matches: a bare reference
offers no `?`, a query reference puts `?` where `['"]?\)` must close. -/
lemma patTail_form_miss (wq : Bool) (qy : Option (List Char)) (q2 : Option Char)
    (R : List Char) (hq2 : qOkB q2 = true) (hform : qy.isSome ≠ wq) :
    patTail wq (qyR qy ++ (oqR q2 ++ Char.ofNat 41 :: R)) = none := by
  cases qy with
  | some qs =>
      have hw : wq = false := by
        cases wq
        · rfl
        · simp at hform
      subst hw
      rw [show qyR (some qs) = Char.ofNat 63 :: qs from rfl, List.cons_append]
      simp [patTail, matchOptQuote, matchCloseParen,
        show isQuoteC (Char.ofNat 63) = false from by decide,
        show (Char.ofNat 63 == Char.ofNat 41) = false from by decide]
  | none =>
      have hw : wq = true := by
        cases wq
        · simp at hform
        · rfl
      subst hw
      rw [show qyR none = ([] : List Char) from rfl, List.nil_append]
      cases q2 with
      | none =>
          rw [show oqR none = ([] : List Char) from rfl, List.nil_append]
          simp [patTail,
            show (Char.ofNat 41 == Char.ofNat 63) = false from by decide]
      | some qc2 =>
          have hq : isQuoteC qc2 = true := by simpa [qOkB] using hq2
          rw [show oqR (some qc2) = [qc2] from rfl, List.singleton_append]
          simp [patTail,
            quote_beq_false hq (show isQuoteC (Char.ofNat 63) = false from by decide)]

/-- At the head of a pending reference whose extension or form does not
agree with the running pass, the pattern fails. -/
lemma refK_ext_miss (wq : Bool) (ext e : List Char) (q2 : Option Char)
    (qy : Option (List Char)) (R : List Char)
    (hext : ∀ c ∈ ext, isAlnum c = true) (he : ∀ c ∈ e, isAlnum c = true)
    (hq2 : qOkB q2 = true) (hmis : ¬(e = ext ∧ qy.isSome = wq)) :
    refK wq ext (e ++ (qyR qy ++ (oqR q2 ++ Char.ofNat 41 :: R))) = none := by
  by_cases hee : e = ext
  · subst hee
    rw [refK_self]
    exact patTail_form_miss wq qy q2 R hq2 (fun h => hmis ⟨rfl, h⟩)
  · unfold refK
    cases hs : stripL ext (e ++ (qyR qy ++ (oqR q2 ++ Char.ofNat 41 :: R))) with
    | none => rfl
    | some s3 =>
        rcases stripL_append_cases hs with ⟨t, ht, hst⟩ | ⟨t, ht, hr⟩
        · cases t with
          | nil =>
              have hx : ext = e := by simpa using ht
              exact absurd hx.symm hee
          | cons t0 t' =>
              have ht0 : isAlnum t0 = true :=
                hext t0 (by rw [ht]; exact List.mem_append_right _ (List.mem_cons_self _ _))
              exfalso
              cases qy with
              | some qs =>
                  rw [show qyR (some qs) = Char.ofNat 63 :: qs from rfl,
                    List.cons_append, stripL.eq_3,
                    beq_false_of_alnum ht0
                      (show isAlnum (Char.ofNat 63) = false from by decide)] at hst
                  simp at hst
              | none =>
                  rw [show qyR none = ([] : List Char) from rfl,
                    List.nil_append] at hst
                  cases q2 with
                  | some qc2 =>
                      have hq : isQuoteC qc2 = true := by simpa [qOkB] using hq2
                      rw [show oqR (some qc2) = [qc2] from rfl,
                        List.singleton_append, stripL.eq_3,
                        beq_false_of_alnum ht0 (alnum_false_of_quote hq)] at hst
                      simp at hst
                  | none =>
                      rw [show oqR none = ([] : List Char) from rfl,
                        List.nil_append, stripL.eq_3,
                        beq_false_of_alnum ht0
                          (show isAlnum (Char.ofNat 41) = false from by decide)] at hst
                      simp at hst
        · cases t with
          | nil =>
              have hx : e = ext := by simpa using ht
              exact absurd hx hee
          | cons t0 t' =>
              have ht0 : isAlnum t0 = true :=
                he t0 (by rw [ht]; exact List.mem_append_right _ (List.mem_cons_self _ _))
              rw [hr, List.cons_append]
              exact patTail_fail_alnum ht0

lemma matchPat_ref_miss (wq : Bool) (fontName contentHash ext e : List Char)
    (q1 q2 : Option Char) (qy : Option (List Char)) (R : List Char)
    (hf : fontName ≠ []) (hfa : ∀ c ∈ fontName, isAlnum c = true)
    (hext : ∀ c ∈ ext, isAlnum c = true) (he : ∀ c ∈ e, isAlnum c = true)
    (hq1 : qOkB q1 = true) (hq2 : qOkB q2 = true)
    (hmis : ¬(e = ext ∧ qy.isSome = wq)) :
    matchPat wq (fontName ++ [Char.ofNat 46] ++ ext)
      (renderCSeg fontName contentHash (CSeg.ref e q1 q2 qy) ++ R) = none := by
  rw [renderRef_split, matchPat_url,
    matchOptQuote_ref wq fontName ext e _ q1 hf hfa hq1]
  exact refK_ext_miss wq ext e q2 qy R hext he hq2 hmis

/-- An already rewritten reference `url("NAME.HASH.EXT")` is inert for all
ten passes. -/
lemma matchPat_done_miss (wq : Bool) (fontName contentHash ext e : List Char)
    (R : List Char) (hf : fontName ≠ [])
    (hfa : ∀ c ∈ fontName, isAlnum c = true)
    (hext : ∀ c ∈ ext, isAlnum c = true)
    (hh : ∀ c ∈ contentHash, isAlnum c = true) (hh0 : contentHash ≠ []) :
    matchPat wq (fontName ++ [Char.ofNat 46] ++ ext)
      (renderCSeg fontName contentHash (CSeg.done e) ++ R) = none := by
  have hsplit : renderCSeg fontName contentHash (CSeg.done e) ++ R =
      "url(".toList ++ (Char.ofNat 34 ::
        ((fontName ++ [Char.ofNat 46]) ++
          (contentHash ++ [Char.ofNat 46] ++
            (e ++ Char.ofNat 34 :: Char.ofNat 41 :: R)))) := by
    simp [renderCSeg, cssRepl, getHashedFilename, hh0, List.append_assoc]
  rw [hsplit, matchPat_url,
    matchOptQuote_quote _ _ (show isQuoteC (Char.ofNat 34) = true from by decide)]
  have hinner : refK wq (fontName ++ [Char.ofNat 46] ++ ext)
      ((fontName ++ [Char.ofNat 46]) ++
        (contentHash ++ [Char.ofNat 46] ++
          (e ++ Char.ofNat 34 :: Char.ofNat 41 :: R))) = none := by
    rw [show fontName ++ [Char.ofNat 46] ++ ext =
      (fontName ++ [Char.ofNat 46]) ++ ext from rfl, refK_shift]
    exact refK_alnum_dot_none _ hext hh
  rw [hinner]
  exact refK_quote_head wq fontName ext _ _ hf hfa (by decide)

/-! ### C5: per-segment probe lemmas -/

lemma qyOkB_spec {qs : List Char} (h : qyOkB (some qs) = true) :
    ∀ c ∈ qs, isQuoteC c = false ∧ (c == Char.ofNat 40) = false := by
  intro c hc
  simp only [qyOkB, List.all_eq_true] at h
  have := h c hc
  simpa using this

lemma qnqOkB_text_spec {t : List Char} (h : qnqOkB [CSeg.text t] = true) :
    ∀ c ∈ t, isQuoteC c = false ∧ (c == Char.ofNat 41) = false := by
  intro c hc
  simp only [qnqOkB, List.all_eq_true] at h
  have := h c hc
  simpa using this

lemma renderRef_ne_nil (fontName contentHash e : List Char) (q1 q2 : Option Char)
    (qy : Option (List Char)) :
    renderCSeg fontName contentHash (CSeg.ref e q1 q2 qy) ≠ [] := by
  intro h
  have h2 : ("url(".toList ++
      (oqR q1 ++ (fontName ++ [Char.ofNat 46] ++ e) ++ qyR qy ++ oqR q2 ++
        [Char.ofNat 41])) = [] := h
  rw [show "url(".toList = 'u' :: ['r', 'l', '('] from rfl,
    List.cons_append] at h2
  simp at h2

/-- The tail of a pending reference contains no `(`. -/
lemma refTail_op_free (fontName e : List Char) (q1 q2 : Option Char)
    (qy : Option (List Char)) (hfa : ∀ c ∈ fontName, isAlnum c = true)
    (he : ∀ c ∈ e, isAlnum c = true) (hq1 : qOkB q1 = true)
    (hq2 : qOkB q2 = true) (hqy : qyOkB qy = true) :
    ∀ c ∈ (oqR q1 ++ (fontName ++ [Char.ofNat 46] ++ e) ++ qyR qy ++ oqR q2 ++
      [Char.ofNat 41]), (c == Char.ofNat 40) = false := by
  intro c hc
  simp only [List.mem_append] at hc
  rcases hc with ((((hc | hc) | hc) | hc) | hc)
  · cases q1 with
    | none => simp [oqR] at hc
    | some qc =>
        have hq : isQuoteC qc = true := by simpa [qOkB] using hq1
        rw [show oqR (some qc) = [qc] from rfl] at hc
        rw [List.mem_singleton.mp hc]
        exact quote_beq_false hq (by decide)
  · rcases hc with (hc | hc) | hc
    · exact beq_false_of_alnum (hfa c hc) (by decide)
    · rw [List.mem_singleton.mp hc]
      decide
    · exact beq_false_of_alnum (he c hc) (by decide)
  · cases qy with
    | none => simp [qyR] at hc
    | some qs =>
        rw [show qyR (some qs) = Char.ofNat 63 :: qs from rfl] at hc
        rcases List.mem_cons.mp hc with hc | hc
        · rw [hc]; decide
        · exact (qyOkB_spec hqy c hc).2
  · cases q2 with
    | none => simp [oqR] at hc
    | some qc =>
        have hq : isQuoteC qc = true := by simpa [qOkB] using hq2
        rw [show oqR (some qc) = [qc] from rfl] at hc
        rw [List.mem_singleton.mp hc]
        exact quote_beq_false hq (by decide)
  · rw [List.mem_singleton.mp hc]
    decide

/-- Scanning inside a pending reference finds no match. -/
lemma ref_probe_none {wq : Bool} (old fontName contentHash e : List Char)
    (q1 q2 : Option Char) (qy : Option (List Char))
    (hfa : ∀ c ∈ fontName, isAlnum c = true)
    (he : ∀ c ∈ e, isAlnum c = true) (hq1 : qOkB q1 = true)
    (hq2 : qOkB q2 = true) (hqy : qyOkB qy = true) :
    ∀ i R, 1 ≤ i →
      i < (renderCSeg fontName contentHash (CSeg.ref e q1 q2 qy)).length →
      matchPat wq old
        ((renderCSeg fontName contentHash (CSeg.ref e q1 q2 qy)).drop i ++ R) =
        none := by
  intro i R h1 hlen
  exact seg_probe_none old (refTail_op_free fontName e q1 q2 qy hfa he hq1 hq2 hqy)
    rfl i R h1 hlen

/-- The tail of an already rewritten reference contains no `(`. -/
lemma doneTail_op_free (fontName contentHash e : List Char)
    (hfa : ∀ c ∈ fontName, isAlnum c = true)
    (he : ∀ c ∈ e, isAlnum c = true)
    (hh : ∀ c ∈ contentHash, isAlnum c = true) (hh0 : contentHash ≠ []) :
    ∀ c ∈ ((Char.ofNat 34 :: (getHashedFilename contentHash fontName e ++
        [Char.ofNat 34])) ++ [Char.ofNat 41]),
      (c == Char.ofNat 40) = false := by
  intro c hc
  have hghf : getHashedFilename contentHash fontName e =
      fontName ++ [Char.ofNat 46] ++ contentHash ++ [Char.ofNat 46] ++ e := by
    simp [getHashedFilename, hh0]
  rcases List.mem_append.mp hc with hc | hc
  · rcases List.mem_cons.mp hc with hc | hc
    · rw [hc]; decide
    · rcases List.mem_append.mp hc with hc | hc
      · rw [hghf] at hc
        simp only [List.mem_append] at hc
        rcases hc with (((hc | hc) | hc) | hc) | hc
        · exact beq_false_of_alnum (hfa c hc) (by decide)
        · rw [List.mem_singleton.mp hc]; decide
        · exact beq_false_of_alnum (hh c hc) (by decide)
        · rw [List.mem_singleton.mp hc]; decide
        · exact beq_false_of_alnum (he c hc) (by decide)
      · rw [List.mem_singleton.mp hc]; decide
  · rw [List.mem_singleton.mp hc]; decide

/-- Scanning inside a rewritten reference finds no match. -/
lemma done_probe_none {wq : Bool} (old fontName contentHash e : List Char)
    (hfa : ∀ c ∈ fontName, isAlnum c = true)
    (he : ∀ c ∈ e, isAlnum c = true)
    (hh : ∀ c ∈ contentHash, isAlnum c = true) (hh0 : contentHash ≠ []) :
    ∀ i R, 1 ≤ i →
      i < (renderCSeg fontName contentHash (CSeg.done e)).length →
      matchPat wq old
        ((renderCSeg fontName contentHash (CSeg.done e)).drop i ++ R) =
        none := by
  have hre : renderCSeg fontName contentHash (CSeg.done e) =
      "url(".toList ++
        ((Char.ofNat 34 :: (getHashedFilename contentHash fontName e ++
          [Char.ofNat 34])) ++ [Char.ofNat 41]) := by
    simp only [renderCSeg, cssRepl, List.append_assoc, List.singleton_append,
      List.cons_append, List.nil_append]
  intro i R h1 hlen
  rw [hre] at hlen ⊢
  exact seg_probe_none old
    (doneTail_op_free fontName contentHash e hfa he hh hh0) rfl i R h1 hlen

/-! ### C5: one pattern pass over a whole rendered document -/

lemma pass_replace (wq : Bool) (ext fontName contentHash : List Char)
    (hext : ext ∈ fontExts) (hf : fontName ≠ [])
    (hfa : ∀ c ∈ fontName, isAlnum c = true)
    (hh : ∀ c ∈ contentHash, isAlnum c = true) (hh0 : contentHash ≠ []) :
    ∀ segs, segsOkB segs = true →
      replaceG (matchPat wq (fontName ++ [Char.ofNat 46] ++ ext))
        (cssRepl contentHash fontName ext)
        (renderCss fontName contentHash segs) =
      renderCss fontName contentHash (segs.map (passSeg wq ext)) := by
  have hea : ∀ c ∈ ext, isAlnum c = true := (fontExts_alnum ext hext).2
  intro segs
  induction segs with
  | nil => intro _; simp [renderCss, replaceG_nil]
  | cons seg rest ih =>
      intro hs
      cases seg with
      | text t =>
          simp only [segsOkB, Bool.and_eq_true] at hs
          obtain ⟨⟨ht, hn⟩, hrestb⟩ := hs
          rw [renderCss_cons,
            show renderCSeg fontName contentHash (CSeg.text t) = t from rfl,
            replaceG_skip t (renderCss fontName contentHash rest)
              (text_probe_none _ ht (renderCss_headU fontName contentHash rest hn)),
            ih hrestb, List.map_cons, renderCss_cons]
          rfl
      | done e =>
          simp only [segsOkB, Bool.and_eq_true] at hs
          obtain ⟨heb, hrestb⟩ := hs
          have heA : e ∈ fontExts := of_decide_eq_true heb
          have hea2 : ∀ c ∈ e, isAlnum c = true := (fontExts_alnum e heA).2
          rw [renderCss_cons,
            replaceG_skip _ _ (fun i hi => by
              rcases Nat.eq_zero_or_pos i with h0 | hpos
              · subst h0
                simpa using
                  matchPat_done_miss wq fontName contentHash ext e _ hf hfa hea hh hh0
              · exact done_probe_none _ fontName contentHash e hfa hea2 hh hh0
                  i _ hpos hi),
            ih hrestb, List.map_cons, renderCss_cons]
          rfl
      | ref e q1 q2 qy =>
          simp only [segsOkB, Bool.and_eq_true] at hs
          obtain ⟨⟨⟨⟨⟨heb, hq1b⟩, hq2b⟩, hqyb⟩, hqnqb⟩, hrestb⟩ := hs
          have heA : e ∈ fontExts := of_decide_eq_true heb
          have hea2 : ∀ c ∈ e, isAlnum c = true := (fontExts_alnum e heA).2
          by_cases hmatch : e = ext ∧ qy.isSome = wq
          · have hform := hmatch.2
            have hee := hmatch.1
            subst hee
            cases wq with
            | false =>
                have hqy0 : qy = none := by
                  cases qy with
                  | none => rfl
                  | some qs => simp at hform
                subst hqy0
                rw [renderCss_cons,
                  replaceG_hit _ _ (renderRef_ne_nil fontName contentHash e q1 q2 none)
                    (matchPat_ref_hit_bare fontName contentHash e q1 q2 _ hf hfa
                      hq1b hq2b),
                  ih hrestb, List.map_cons, renderCss_cons,
                  show passSeg false e (CSeg.ref e q1 q2 none) = CSeg.done e from by
                    simp [passSeg]]
                rfl
            | true =>
                have hqyS : ∃ qs, qy = some qs := by
                  cases qy with
                  | none => simp at hform
                  | some qs => exact ⟨qs, rfl⟩
                obtain ⟨qs, rfl⟩ := hqyS
                have hqsS : ∀ c ∈ qs, isQuoteC c = false :=
                  fun c hc => (qyOkB_spec hqyb c hc).1
                cases q2 with
                | some qc2 =>
                    have hqb : isQuoteC qc2 = true := by simpa [qOkB] using hq2b
                    rw [renderCss_cons,
                      replaceG_hit _ _
                        (renderRef_ne_nil fontName contentHash e q1 (some qc2) (some qs))
                        (matchPat_ref_hit_query_quote fontName contentHash e q1 qc2 qs
                          _ hf hfa hq1b hqb hqsS),
                      ih hrestb, List.map_cons, renderCss_cons,
                      show passSeg true e (CSeg.ref e q1 (some qc2) (some qs)) =
                        CSeg.done e from by simp [passSeg]]
                    rfl
                | none =>
                    have hqn : qnqOkB rest = true := by simpa using hqnqb
                    have hT : ∀ c ∈ renderCss fontName contentHash rest,
                        isQuoteC c = false ∧ (c == Char.ofNat 41) = false := by
                      cases rest with
                      | nil => intro c hc; simp [renderCss] at hc
                      | cons s rest' =>
                          cases rest' with
                          | cons s2 rest2 =>
                              exfalso
                              cases s <;> simp [qnqOkB] at hqn
                          | nil =>
                              cases s with
                              | text t2 =>
                                  intro c hc
                                  have hc' : c ∈ t2 := by
                                    simpa [renderCss, renderCSeg] using hc
                                  exact qnqOkB_text_spec hqn c hc'
                              | ref a b c2 d => exfalso; simp [qnqOkB] at hqn
                              | done a => exfalso; simp [qnqOkB] at hqn
                    rw [renderCss_cons,
                      replaceG_hit _ _
                        (renderRef_ne_nil fontName contentHash e q1 none (some qs))
                        (matchPat_ref_hit_query_noquote fontName contentHash e q1 qs
                          _ hf hfa hq1b hqsS hT),
                      ih hrestb, List.map_cons, renderCss_cons,
                      show passSeg true e (CSeg.ref e q1 none (some qs)) =
                        CSeg.done e from by simp [passSeg]]
                    rfl
          · rw [renderCss_cons,
              replaceG_skip _ _ (fun i hi => by
                rcases Nat.eq_zero_or_pos i with h0 | hpos
                · subst h0
                  simpa using
                    matchPat_ref_miss wq fontName contentHash ext e q1 q2 qy _
                      hf hfa hea hea2 hq1b hq2b hmatch
                · exact ref_probe_none _ fontName contentHash e q1 q2 qy hfa hea2
                    hq1b hq2b hqyb i _ hpos hi),
              ih hrestb, List.map_cons, renderCss_cons,
              show passSeg wq ext (CSeg.ref e q1 q2 qy) = CSeg.ref e q1 q2 qy from by
                simp [passSeg, hmatch]]

/-! ### C5: the well-formedness conditions survive each pass -/

lemma nextOkB_map (wq : Bool) (ext : List Char) (rest : List CSeg)
    (h : nextOkB rest = true) : nextOkB (rest.map (passSeg wq ext)) = true := by
  cases rest with
  | nil => rfl
  | cons s r =>
      cases s with
      | text t => simp [nextOkB] at h
      | ref e q1 q2 qy =>
          rw [List.map_cons]
          simp only [passSeg]
          by_cases hc : e = ext ∧ qy.isSome = wq
          · rw [if_pos hc]; rfl
          · rw [if_neg hc]; rfl
      | done e => rw [List.map_cons]; rfl

lemma qnqOkB_map (wq : Bool) (ext : List Char) (rest : List CSeg)
    (h : qnqOkB rest = true) : qnqOkB (rest.map (passSeg wq ext)) = true := by
  cases rest with
  | nil => rfl
  | cons s r =>
      cases r with
      | cons a b =>
          exfalso
          cases s <;> simp [qnqOkB] at h
      | nil =>
          cases s with
          | text t => simpa [qnqOkB, passSeg] using h
          | ref e q1 q2 qy => exfalso; simp [qnqOkB] at h
          | done e => exfalso; simp [qnqOkB] at h

lemma segsOkB_map (wq : Bool) (ext : List Char) :
    ∀ segs, segsOkB segs = true → segsOkB (segs.map (passSeg wq ext)) = true := by
  intro segs
  induction segs with
  | nil => intro h; simpa using h
  | cons s rest ih =>
      intro hs
      cases s with
      | text t =>
          simp only [segsOkB, Bool.and_eq_true] at hs
          obtain ⟨⟨ht, hn⟩, hrest⟩ := hs
          rw [List.map_cons,
            show passSeg wq ext (CSeg.text t) = CSeg.text t from rfl]
          simp only [segsOkB, Bool.and_eq_true]
          exact ⟨⟨ht, nextOkB_map wq ext rest hn⟩, ih hrest⟩
      | done e =>
          simp only [segsOkB, Bool.and_eq_true] at hs
          obtain ⟨he, hrest⟩ := hs
          rw [List.map_cons,
            show passSeg wq ext (CSeg.done e) = CSeg.done e from rfl]
          simp only [segsOkB, Bool.and_eq_true]
          exact ⟨he, ih hrest⟩
      | ref e q1 q2 qy =>
          simp only [segsOkB, Bool.and_eq_true] at hs
          obtain ⟨⟨⟨⟨⟨he, hq1⟩, hq2⟩, hqy⟩, hqnq⟩, hrest⟩ := hs
          rw [List.map_cons]
          by_cases hc : e = ext ∧ qy.isSome = wq
          · rw [show passSeg wq ext (CSeg.ref e q1 q2 qy) = CSeg.done e from by
              simp only [passSeg]; rw [if_pos hc]]
            simp only [segsOkB, Bool.and_eq_true]
            exact ⟨he, ih hrest⟩
          · rw [show passSeg wq ext (CSeg.ref e q1 q2 qy) = CSeg.ref e q1 q2 qy from by
              simp only [passSeg]; rw [if_neg hc]]
            simp only [segsOkB, Bool.and_eq_true]
            refine ⟨⟨⟨⟨⟨he, hq1⟩, hq2⟩, hqy⟩, ?_⟩, ih hrest⟩
            rw [Bool.or_eq_true]
            rcases Bool.or_eq_true _ _ |>.mp hqnq with hg | hg
            · exact Or.inl hg
            · exact Or.inr (qnqOkB_map wq ext rest hg)

def refExtOk : CSeg → Prop
  | CSeg.ref e _ _ _ => e ∈ fontExts
  | _ => True

lemma segsOkB_refExtOk : ∀ segs, segsOkB segs = true → ∀ s ∈ segs, refExtOk s := by
  intro segs
  induction segs with
  | nil => intro _ s hsm; cases hsm
  | cons s0 rest ih =>
      intro hs s hsm
      rcases List.mem_cons.mp hsm with rfl | hsm2
      · cases s with
        | text t => trivial
        | done e => trivial
        | ref e q1 q2 qy =>
            simp only [segsOkB, Bool.and_eq_true] at hs
            show e ∈ fontExts
            exact of_decide_eq_true hs.1.1.1.1.1
      · cases s0 with
        | text t =>
            simp only [segsOkB, Bool.and_eq_true] at hs
            exact ih hs.2 s hsm2
        | ref e q1 q2 qy =>
            simp only [segsOkB, Bool.and_eq_true] at hs
            exact ih hs.2 s hsm2
        | done e =>
            simp only [segsOkB, Bool.and_eq_true] at hs
            exact ih hs.2 s hsm2

/-- The composite of the ten passes (query then bare, per extension in the
code's order) finishes every reference. -/
lemma passAll_eq_finish (s : CSeg) (hok : refExtOk s) :
    passSeg false "svg".toList (passSeg true "svg".toList
      (passSeg false "eot".toList (passSeg true "eot".toList
        (passSeg false "woff2".toList (passSeg true "woff2".toList
          (passSeg false "woff".toList (passSeg true "woff".toList
            (passSeg false "ttf".toList (passSeg true "ttf".toList s))))))))) =
    finishSeg s := by
  cases s with
  | text t => rfl
  | done e => rfl
  | ref e q1 q2 qy =>
      have he : e ∈ fontExts := hok
      simp only [fontExts, List.mem_cons, List.not_mem_nil, or_false] at he
      rcases he with rfl | rfl | rfl | rfl | rfl <;> cases qy <;> rfl

/-- The replacement loop of `updateCSSWithHashedFilenames` rewrites every
rendered reference, of every known extension and every quoting/query form,
into `url("NAME.HASH.EXT")`, and leaves everything else unchanged. -/
lemma updateCSS_segs (fontName contentHash : List Char) (segs : List CSeg)
    (hf : fontName ≠ []) (hfa : ∀ c ∈ fontName, isAlnum c = true)
    (hh : ∀ c ∈ contentHash, isAlnum c = true) (hh0 : contentHash ≠ [])
    (hs : segsOkB segs = true) :
    updateCSSContent contentHash fontName
      (renderCss fontName contentHash segs) =
    renderCss fontName contentHash (segs.map finishSeg) := by
  have step : ∀ ext, ext ∈ fontExts → ∀ sg, segsOkB sg = true →
      replaceG (matchPat false (fontName ++ [Char.ofNat 46] ++ ext))
          (cssRepl contentHash fontName ext)
          (replaceG (matchPat true (fontName ++ [Char.ofNat 46] ++ ext))
            (cssRepl contentHash fontName ext)
            (renderCss fontName contentHash sg)) =
        renderCss fontName contentHash
          ((sg.map (passSeg true ext)).map (passSeg false ext)) := by
    intro ext hexm sg hsg
    rw [pass_replace true ext fontName contentHash hexm hf hfa hh hh0 sg hsg,
      pass_replace false ext fontName contentHash hexm hf hfa hh hh0 _
        (segsOkB_map true ext sg hsg)]
  have hok1 := segsOkB_map false "ttf".toList _ (segsOkB_map true "ttf".toList segs hs)
  have hok2 := segsOkB_map false "woff".toList _ (segsOkB_map true "woff".toList _ hok1)
  have hok3 := segsOkB_map false "woff2".toList _ (segsOkB_map true "woff2".toList _ hok2)
  have hok4 := segsOkB_map false "eot".toList _ (segsOkB_map true "eot".toList _ hok3)
  simp only [updateCSSContent, fontExts, List.foldl_cons, List.foldl_nil]
  rw [step "ttf".toList (by decide) segs hs,
    step "woff".toList (by decide) _ hok1,
    step "woff2".toList (by decide) _ hok2,
    step "eot".toList (by decide) _ hok3,
    step "svg".toList (by decide) _ hok4]
  refine congrArg _ ?_
  simp only [List.map_map]
  refine List.map_congr_left ?_
  intro a ha
  simp only [Function.comp]
  exact passAll_eq_finish a (segsOkB_refExtOk segs hs a ha)

/-- C5 counterexample: the rewrite step does not replace every occurrence
of the old filename in the style sheet text.  `icongen.ttf` occurs in the
text (at offset 5, as the strip below witnesses), but since it is not
wrapped in `url(...)`, neither pattern matches and `updateCSSContent`
returns the text unchanged. -/
theorem C5_counterexample :
    updateCSSContent "a1b2c3d4".toList "icongen".toList
        "src: icongen.ttf;".toList = "src: icongen.ttf;".toList ∧
    stripL ("icongen".toList ++ [Char.ofNat 46] ++ "ttf".toList)
        ("src: icongen.ttf;".toList.drop 5) = some ";".toList := by
  constructor
  · have h := updateCSS_segs "icongen".toList "a1b2c3d4".toList
      [CSeg.text "src: icongen.ttf;".toList]
      (by decide) (by decide) (by decide) (by decide) (by decide)
    simpa [renderCss, renderCSeg, finishSeg] using h
  · decide

/-- C5 (amended): for a style sheet made of free text (containing no stray
`url(`) and `url()` font references — every known extension, quoted or
unquoted, bare or with a cache-busting query suffix (an unquoted query
reference being final, up to quote- and parenthesis-free trailing text,
so the greedy `[^'"]*` cannot overrun) — the rewrite step replaces every
reference of every extension with `url("NAME.HASH.EXT")` and leaves all
other text unchanged. -/
theorem C5_amended (fontName contentHash : List Char) (segs : List CSeg)
    (hf : fontName ≠ []) (hfa : ∀ c ∈ fontName, isAlnum c = true)
    (hh : ∀ c ∈ contentHash, isAlnum c = true) (hh0 : contentHash ≠ [])
    (hs : segsOkB segs = true) :
    updateCSSContent contentHash fontName
      (renderCss fontName contentHash segs) =
    renderCss fontName contentHash (segs.map finishSeg) :=
  updateCSS_segs fontName contentHash segs hf hfa hh hh0 hs

/-- C5 amended, witnessed on a concrete sheet: a bare unquoted `ttf`
reference, a quoted `woff` reference with query suffix, and free text
around them. -/
theorem C5_amended_witness :
    segsOkB
      [CSeg.text "src: ".toList,
       CSeg.ref "ttf".toList none none none,
       CSeg.text " format(truetype); ".toList,
       CSeg.ref "woff".toList (some (Char.ofNat 39)) (some (Char.ofNat 39))
         (some "v=12".toList),
       CSeg.text "; tail".toList] = true ∧
    updateCSSContent "a1b2c3d4".toList "icongen".toList
      (renderCss "icongen".toList "a1b2c3d4".toList
        [CSeg.text "src: ".toList,
         CSeg.ref "ttf".toList none none none,
         CSeg.text " format(truetype); ".toList,
         CSeg.ref "woff".toList (some (Char.ofNat 39)) (some (Char.ofNat 39))
           (some "v=12".toList),
         CSeg.text "; tail".toList]) =
    renderCss "icongen".toList "a1b2c3d4".toList
      ([CSeg.text "src: ".toList,
        CSeg.ref "ttf".toList none none none,
        CSeg.text " format(truetype); ".toList,
        CSeg.ref "woff".toList (some (Char.ofNat 39)) (some (Char.ofNat 39))
          (some "v=12".toList),
        CSeg.text "; tail".toList].map finishSeg) :=
  ⟨by decide,
    C5_amended "icongen".toList "a1b2c3d4".toList _
      (by decide) (by decide) (by decide) (by decide) (by decide)⟩
